import Mathlib

/-!
Verification of the NooBaa `NamespaceFS` core (src/sdk/namespace_fs.js)
against its natural-language specification.

The development shallowly embeds the parts of the source that the claims
touch: the xattr codec, the etag and version-id derivations, the
versioning state machine for a single key (upload publish, delete-latest
with delete-marker creation, delete-specific-version with promotion), the
multipart completion loop, the path mapper guard, and the error
translation layer.  JavaScript strings are modelled by `String`,
JS objects holding xattrs by association lists, machine integers
(`BigInt` nanosecond timestamps, inode numbers) by `Nat`, and thrown JS
errors by `Except`.
-/

/-! ## Base-36 rendering (JS `Number.prototype.toString(36)` / `BigInt.toString(36)`) -/

/-- Digit character for base 36, lowercase, as produced by JS `toString(36)`. -/
def base36digit (d : Nat) : Char :=
  if d < 10 then Char.ofNat (48 + d) else Char.ofNat (87 + d)

/-- Numeric value of a base-36 digit character (inverse of `base36digit`). -/
def base36val (c : Char) : Nat :=
  if c.toNat < 58 then c.toNat - 48 else c.toNat - 87

/-- Digit list of `n` in base 36, most significant first; empty for 0. -/
def toBase36Aux (n : Nat) : List Char :=
  if h : n = 0 then []
  else toBase36Aux (n / 36) ++ [base36digit (n % 36)]
decreasing_by exact Nat.div_lt_self (Nat.pos_of_ne_zero h) (by omega)

/-- JS `n.toString(36)`: positional base-36 numeral, `"0"` for zero. -/
def toBase36 (n : Nat) : String :=
  if n = 0 then "0" else String.mk (toBase36Aux n)

/-- Read a base-36 digit list back into a number. -/
def ofBase36 (l : List Char) : Nat :=
  l.foldl (fun acc c => 36 * acc + base36val c) 0

theorem base36val_base36digit (d : Nat) (h : d < 36) :
    base36val (base36digit d) = d := by
  interval_cases d <;> decide

theorem ofBase36_append_digit (l : List Char) (c : Char) :
    ofBase36 (l ++ [c]) = 36 * ofBase36 l + base36val c := by
  simp [ofBase36, List.foldl_append]

theorem ofBase36_toBase36Aux (n : Nat) : ofBase36 (toBase36Aux n) = n := by
  induction n using Nat.strong_induction_on with
  | _ n ih =>
    by_cases h : n = 0
    · subst h; simp [toBase36Aux, ofBase36]
    · rw [toBase36Aux]
      simp only [h, dite_false]
      rw [ofBase36_append_digit, ih (n / 36) (Nat.div_lt_self (Nat.pos_of_ne_zero h) (by omega)),
        base36val_base36digit (n % 36) (Nat.mod_lt n (by omega))]
      omega

theorem toBase36Aux_ne_zero_char (n : Nat) (h : n ≠ 0) : toBase36Aux n ≠ ['0'] := by
  intro hc
  have := ofBase36_toBase36Aux n
  rw [hc] at this
  simp [ofBase36, base36val] at this
  omega

/-- `toBase36` is injective: distinct numbers render to distinct strings. -/
theorem toBase36_injective : Function.Injective toBase36 := by
  intro a b hab
  unfold toBase36 at hab
  by_cases ha : a = 0 <;> by_cases hb : b = 0 <;> simp [ha, hb] at hab ⊢
  · exact absurd (congrArg String.data hab).symm
      (by simpa [String.mk] using toBase36Aux_ne_zero_char b hb)
  · exact absurd (congrArg String.data hab)
      (by simpa [String.mk] using toBase36Aux_ne_zero_char a ha)
  · have hd : toBase36Aux a = toBase36Aux b := congrArg String.data hab
    have := ofBase36_toBase36Aux a
    rw [hd, ofBase36_toBase36Aux b] at this
    omega

theorem toBase36Aux_ne_nil (n : Nat) (h : n ≠ 0) : toBase36Aux n ≠ [] := by
  rw [toBase36Aux]
  simp [h]

/-! ## JS string helpers (semantics of the JS string methods used by the source) -/

/-- JS `String.prototype.includes(sub)`: substring containment. -/
def jsIncludes (s sub : String) : Bool :=
  decide (sub.data <:+: s.data)

/-- JS truthiness of an optional string value (`undefined` and `""` are falsy). -/
def jsTruthy : Option String → Bool
  | some v => v ≠ ""
  | none => false

/-- Node `path.basename`: the last `/`-separated component.  (Node also
strips a trailing `/` first; both forms agree with the full string
exactly when the string is `/`-free, the only property used below.) -/
def basenameOf (s : String) : String :=
  String.mk ((s.data.reverse.takeWhile (fun c => !(c == '/'))).reverse)

theorem takeWhile_eq_self_of_all (p : Char → Bool) :
    ∀ l : List Char, (∀ a ∈ l, p a = true) → l.takeWhile p = l := by
  intro l
  induction l with
  | nil => intro h; rfl
  | cons a t ih =>
      intro h
      have ha : p a = true := h a (List.mem_cons_self a t)
      show List.takeWhile p (a :: t) = a :: t
      simp only [List.takeWhile, ha]
      rw [ih (fun b hb => h b (List.mem_cons_of_mem a hb))]

theorem all_of_takeWhile_eq_self (p : Char → Bool) :
    ∀ l : List Char, l.takeWhile p = l → ∀ a ∈ l, p a = true := by
  intro l
  induction l with
  | nil => intro h a ha; exact absurd ha (List.not_mem_nil a)
  | cons b t ih =>
      intro h a ha
      cases hb : p b with
      | false =>
          have h0 : List.takeWhile p (b :: t) = [] := by
            simp only [List.takeWhile, hb]
          rw [h0] at h
          exact absurd h (by simp)
      | true =>
          have h1 : List.takeWhile p (b :: t) = b :: List.takeWhile p t := by
            simp only [List.takeWhile, hb]
          rw [h1] at h
          injection h with hh ht
          rcases List.mem_cons.mp ha with rfl | hat
          · exact hb
          · exact ih ht a hat

theorem basenameOf_eq_self (s : String) (h : '/' ∉ s.data) : basenameOf s = s := by
  obtain ⟨d⟩ := s
  rw [basenameOf]
  have hall : ∀ a ∈ d.reverse, (fun c => !(c == '/')) a = true := by
    intro a ha
    have ham : a ∈ d := List.mem_reverse.mp ha
    have hne : a ≠ '/' := fun he => h (by simpa [he] using ham)
    simpa using hne
  show String.mk ((d.reverse.takeWhile (fun c => !(c == '/'))).reverse) = String.mk d
  rw [takeWhile_eq_self_of_all _ _ hall, List.reverse_reverse]

theorem basenameOf_ne_self (s : String) (h : '/' ∈ s.data) : basenameOf s ≠ s := by
  obtain ⟨d⟩ := s
  intro he
  rw [basenameOf] at he
  have hd : (d.reverse.takeWhile (fun c => !(c == '/'))).reverse = d :=
    congrArg String.data he
  have ht : d.reverse.takeWhile (fun c => !(c == '/')) = d.reverse := by
    have h2 := congrArg List.reverse hd
    simpa using h2
  have h3 := all_of_takeWhile_eq_self _ _ ht '/' (by simpa using h)
  simp at h3

/-! ## Version-id strings

A version id in the source is either the literal string `"null"` or
`"mtime-<mtimeNs base36>-ino-<ino base36>"` (`_get_version_id_by_stat`,
line 2092).  We model the well-formed ids by an inductive type together
with the exact string rendering, and prove rendering is injective and
never produces `"null"` for a stat-derived id, so that the model's
id-equality tests agree with the source's string comparisons. -/

inductive VersionId where
  | null : VersionId
  | mtimeIno (mtimeNs ino : Nat) : VersionId
deriving DecidableEq, Repr

/-- `_get_version_id_by_stat`: `'mtime-' + mtimeNsBigint.toString(36) + '-ino-' + ino.toString(36)`. -/
def get_version_id_by_stat_str (mtimeNs ino : Nat) : String :=
  "mtime-" ++ toBase36 mtimeNs ++ "-ino-" ++ toBase36 ino

/-- String rendering of a model version id (`NULL_VERSION_ID = 'null'`). -/
def VersionId.render : VersionId → String
  | .null => "null"
  | .mtimeIno m i => get_version_id_by_stat_str m i

theorem render_mtimeIno_ne_null (m i : Nat) :
    VersionId.render (VersionId.mtimeIno m i) ≠ "null" := by
  intro h
  have := congrArg String.data h
  simp [VersionId.render, get_version_id_by_stat_str, String.data_append] at this

theorem base36digit_ne_dash (d : Nat) (h : d < 36) : base36digit d ≠ '-' := by
  interval_cases d <;> decide

theorem toBase36Aux_no_dash (n : Nat) : '-' ∉ toBase36Aux n := by
  induction n using Nat.strong_induction_on with
  | _ n ih =>
    rw [toBase36Aux]
    by_cases h : n = 0
    · simp [h]
    · simp only [h, dite_false, List.mem_append, List.mem_singleton]
      push_neg
      refine ⟨ih (n / 36) (Nat.div_lt_self (Nat.pos_of_ne_zero h) (by omega)), ?_⟩
      exact fun hc => base36digit_ne_dash (n % 36) (Nat.mod_lt n (by omega)) hc.symm

theorem toBase36_no_dash (n : Nat) : '-' ∉ (toBase36 n).data := by
  unfold toBase36
  by_cases h : n = 0
  · subst h; decide
  · simpa [h] using toBase36Aux_no_dash n

/-- Splitting two appended lists at a separator absent from the heads. -/
theorem append_dash_inj (a : List Char) : ∀ (b c d : List Char), '-' ∉ a → '-' ∉ b →
    a ++ '-' :: c = b ++ '-' :: d → a = b ∧ c = d := by
  induction a with
  | nil =>
    intro b c d _ hb h
    cases b with
    | nil => simpa using h
    | cons y b2 =>
      simp only [List.nil_append, List.cons_append, List.cons.injEq] at h
      obtain ⟨h1, h2⟩ := h
      subst h1
      exact absurd (List.mem_cons_self _ _) hb
  | cons x a2 ih =>
    intro b c d ha hb h
    cases b with
    | nil =>
      simp only [List.cons_append, List.nil_append, List.cons.injEq] at h
      obtain ⟨h1, h2⟩ := h
      subst h1
      exact absurd (List.mem_cons_self _ _) ha
    | cons y b2 =>
      simp only [List.cons_append, List.cons.injEq] at h
      obtain ⟨h1, h2⟩ := h
      have ha2 : '-' ∉ a2 := fun hm => ha (List.mem_cons_of_mem _ hm)
      have hb2 : '-' ∉ b2 := fun hm => hb (List.mem_cons_of_mem _ hm)
      have := ih b2 c d ha2 hb2 h2
      exact ⟨by rw [h1, this.1], this.2⟩

/-- Rendering of version ids is injective, so comparing rendered strings
(as the source does) agrees with comparing model ids. -/
theorem versionId_render_injective : Function.Injective VersionId.render := by
  intro a b hab
  cases a with
  | null =>
    cases b with
    | null => rfl
    | mtimeIno m i => exact absurd hab.symm (render_mtimeIno_ne_null m i)
  | mtimeIno m i =>
    cases b with
    | null => exact absurd hab (render_mtimeIno_ne_null m i)
    | mtimeIno m2 i2 =>
      simp only [VersionId.render, get_version_id_by_stat_str] at hab
      have hd := congrArg String.data hab
      simp only [String.data_append] at hd
      have hrest : (toBase36 m).data ++ '-' :: ('i' :: 'n' :: 'o' :: '-' :: (toBase36 i).data)
          = (toBase36 m2).data ++ '-' :: ('i' :: 'n' :: 'o' :: '-' :: (toBase36 i2).data) := by
        have : "mtime-".data ++ ((toBase36 m).data ++ '-' :: 'i' :: 'n' :: 'o' :: '-' :: (toBase36 i).data)
            = "mtime-".data ++ ((toBase36 m2).data ++ '-' :: 'i' :: 'n' :: 'o' :: '-' :: (toBase36 i2).data) := by
          simpa [List.append_assoc] using hd
        exact List.append_cancel_left this
      have key := append_dash_inj (toBase36 m).data (toBase36 m2).data _ _
        (toBase36_no_dash m) (toBase36_no_dash m2) hrest
      have hm : toBase36 m = toBase36 m2 := by
        apply String.ext
        exact key.1
      have hi : toBase36 i = toBase36 i2 := by
        apply String.ext
        simpa using key.2
      rw [toBase36_injective hm, toBase36_injective hi]

/-! ## Xattr codec (namespace_fs.js lines 38-54, 223-237)

An on-disk xattr set is an association list of string keys to string
values; keys are unique (JS object keys).  `xattr_get` is JS property
lookup, `xattr_set` is `Object.assign` for a single key. -/

def XATTR_USER_NS : String := "user."

def XATTR_CONTENT_TYPE : String := "user.content_type"

def XATTR_MD5_KEY : String := "user.content_md5"

def XATTR_VERSION_ID : String := "user.version_id"

def XATTR_PREV_VERSION_ID : String := "user.prev_version_id"

def XATTR_DELETE_MARKER : String := "user.delete_marker"

def XATTR_DIR_CONTENT : String := "user.dir_content"

/-- `INTERNAL_XATTR` (lines 49-54).  Note: the source lists only these
four keys; `content_md5` and `version_id` are absent. -/
def INTERNAL_XATTR : List String :=
  [XATTR_CONTENT_TYPE, XATTR_DIR_CONTENT, XATTR_PREV_VERSION_ID, XATTR_DELETE_MARKER]

abbrev Xattr : Type := List (String × String)

/-- JS property read of an xattr object (keys unique; first match). -/
def xattr_get (x : Xattr) (k : String) : Option String :=
  (List.find? (fun p => p.1 == k) x).map (fun p => p.2)

/-- JS `startsWith` on the `user.` namespace: the 5-char marker is a
character-list prefix of the key. -/
def has_user_ns (k : String) : Bool :=
  List.isPrefixOf XATTR_USER_NS.data k.data

/-- JS `key.slice('user.'.length)`: drop the 5 marker characters. -/
def strip_user_ns (k : String) : String :=
  String.mk (k.data.drop 5)

/-- `to_xattr` (lines 223-232): map every key; keys that carry the `user.`
marker and are not in `INTERNAL_XATTR` are stripped of the marker, all
other keys collapse to `''` and the `''` key is deleted.  (The sort-symbol
tagging on line 230 attaches a JS Symbol, invisible to string-keyed reads,
and is not modelled.) -/
def to_xattr (fs_xattr : Xattr) : Xattr :=
  (fs_xattr.filter (fun p => has_user_ns p.1 && !(INTERNAL_XATTR.contains p.1))).map
    (fun p => (strip_user_ns p.1, p.2))

/-- `to_fs_xattr` (lines 234-237): put the `user.` marker on every key.
(The `_.isEmpty` short-circuit returns `undefined`, modelled by the empty
list.) -/
def to_fs_xattr (xattr : Xattr) : Xattr :=
  xattr.map (fun p => (XATTR_USER_NS ++ p.1, p.2))

/-! ## Stats, etag, object info (lines 1782-1839, 2092-2116) -/

/-- The fields of a `nb.NativeFSStats` used by the claims: nanosecond
mtime (`mtimeNsBigint`), inode number, size and the xattr set. -/
structure NFSStat where
  mtimeNs : Nat
  ino : Nat
  size : Nat
  xattr : Xattr
deriving DecidableEq, Repr

/-- The three bucket versioning modes (`versioning_status_enum`, lines 56-60). -/
inductive VersioningMode where
  | ENABLED : VersioningMode
  | SUSPENDED : VersioningMode
  | DISABLED : VersioningMode
deriving DecidableEq, Repr

/-- `_etag_from_fs_xattr` (lines 1795-1798). -/
def etag_from_fs_xattr (xattr : Xattr) : Option String :=
  xattr_get xattr XATTR_MD5_KEY

/-- `_get_etag` (lines 1782-1789): line 1784 is `if (xattr_etag) return
xattr_etag;` — a JS truthiness test, so an absent OR empty md5 xattr
falls through to the version-id-by-stat string. -/
def get_etag (stat : NFSStat) : String :=
  let xattr_etag := etag_from_fs_xattr stat.xattr
  if jsTruthy xattr_etag then xattr_etag.getD ""
  else get_version_id_by_stat_str stat.mtimeNs stat.ino

/-- `_get_version_id_by_xattr` (lines 2114-2116): the JS expression is
`(stat && stat.xattr[XATTR_VERSION_ID]) || 'null'`, so any falsy xattr
value — absent, or the empty string — collapses to `'null'`. -/
def get_version_id_by_xattr_str (stat : NFSStat) : String :=
  let v := xattr_get stat.xattr XATTR_VERSION_ID
  if jsTruthy v then v.getD "" else "null"

/-- The fields of the source's `ObjectInfo` record (lines 1814-1838)
relevant to the claims.  `version_id` is `Option` because the JS
expression `return_version_id && enabled && vid` produces a falsy
non-string value when either conjunct fails.  Fields whose values come
from out-of-scope modules (mime lookup, encryption, tagging stubs) are
omitted. -/
structure ObjectInfo where
  bucket : String
  key : String
  size : Nat
  etag : String
  version_id : Option String
  is_latest : Bool
  delete_marker : Bool
  xattr : Xattr
deriving DecidableEq, Repr

/-- `_get_object_info` (lines 1806-1839).  `return_version_id` is the
string argument passed at the call sites (`params.version_id || 'null'`),
so JS truthiness is nonemptiness. -/
def get_object_info (versioning : VersioningMode) (bucket key : String) (stat : NFSStat)
    (return_version_id : String) (is_latest : Bool) : ObjectInfo :=
  { bucket := bucket
    key := key
    size := stat.size
    etag := get_etag stat
    version_id :=
      if return_version_id ≠ "" && (versioning == VersioningMode.ENABLED) then
        some (get_version_id_by_xattr_str stat)
      else none
    is_latest := is_latest
    delete_marker := xattr_get stat.xattr XATTR_DELETE_MARKER == some "true"
    xattr := to_xattr stat.xattr }

/-! ## Error objects and translation (lines 1871-1879, 2176-2196) -/

/-- A thrown JS error as the callers observe it: message, optional
`code` property, optional `rpc_code` property. -/
structure JsError where
  message : String
  code : Option String
  rpc_code : Option String
deriving DecidableEq, Repr

/-- `_translate_object_error_codes` (lines 1871-1879).  An error that
already has an `rpc_code` is returned as is; otherwise `rpc_code` is
assigned from `code`; errors without a recognized `code` keep
`rpc_code` unset. -/
def translate_object_error_codes (e : JsError) : JsError :=
  if e.rpc_code.isSome then e
  else
    { e with rpc_code :=
        if e.code == some "ENOENT" then some "NO_SUCH_OBJECT"
        else if e.code == some "EEXIST" then some "BUCKET_ALREADY_EXISTS"
        else if e.code == some "EPERM" || e.code == some "EACCES" then some "UNAUTHORIZED"
        else if e.code == some "IO_STREAM_ITEM_TIMEOUT" then some "IO_STREAM_ITEM_TIMEOUT"
        else if e.code == some "INTERNAL_ERROR" then some "INTERNAL_ERROR"
        else none }

/-- `_throw_if_delete_marker` (lines 2176-2183): in ENABLED or SUSPENDED
mode a truthy `user.delete_marker` xattr raises an error carrying errno
code `ENOENT` (`error_utils.new_error_code`). -/
def throw_if_delete_marker (versioning : VersioningMode) (stat : NFSStat) : Except JsError Unit :=
  if versioning == VersioningMode.ENABLED || versioning == VersioningMode.SUSPENDED then
    if jsTruthy (xattr_get stat.xattr XATTR_DELETE_MARKER) then
      Except.error { message := "Entry is a delete marker", code := some "ENOENT", rpc_code := none }
    else Except.ok ()
  else Except.ok ()

/-- `read_object_md` (lines 775-788), from the point where the target
file's stat has been obtained: the delete-marker gate runs, then
`_get_object_info` builds the result; a thrown error is passed through
`_translate_object_error_codes` by the catch block. -/
def read_object_md_from_stat (versioning : VersioningMode) (bucket key : String)
    (stat : NFSStat) (version_id : Option String) : Except JsError ObjectInfo :=
  match throw_if_delete_marker versioning stat with
  | Except.error e => Except.error (translate_object_error_codes e)
  | Except.ok _ =>
      Except.ok (get_object_info versioning bucket key stat (version_id.getD "null") true)

/-- `read_object_stream` (lines 791-959), the same delete-marker gate
after the open/stat of the target (line 823); errors are translated by
the catch block (line 939). -/
def read_object_stream_gate (versioning : VersioningMode) (stat : NFSStat) :
    Except JsError Unit :=
  match throw_if_delete_marker versioning stat with
  | Except.error e => Except.error (translate_object_error_codes e)
  | Except.ok _ => Except.ok ()

/-! ## Single-key versioning state machine (namespace_fs.js lines 1100-1121, 1186-1241, 2212-2532)

We model the filesystem state relevant to one object key: the file at
the key path (`latest`) and the entries of the `.versions/` sidecar
directory belonging to that key.  A sidecar entry is a pair of the
version-id part of its filename (`_get_version_path` names the file
`<basename>_<version_id>`) and the file itself.  Requests are
sequential, so each retry loop of the source is a single deterministic
attempt; a `safe_link` collision (`EEXIST`) exhausts the retries and
surfaces as a throw, leaving the state reached so far. -/

/-- The stat identity of a freshly written file: nanosecond mtime and inode. -/
structure StatLite where
  mtimeNs : Nat
  ino : Nat
deriving DecidableEq, Repr

/-- A file as the version manager sees it: its stat identity and the
internal xattrs it carries. -/
structure FsFile where
  mtimeNs : Nat
  ino : Nat
  version_id_xattr : Option VersionId
  delete_marker : Bool
  prev_version_id : Option VersionId
deriving DecidableEq, Repr

/-- `_get_version_id_by_xattr` (lines 2114-2116) at the model level:
the version_id xattr, or `null` when the xattr is absent. -/
def FsFile.vid (f : FsFile) : VersionId :=
  f.version_id_xattr.getD VersionId.null

/-- `_get_version_info` (lines 2140-2159) spreads `ver_info_by_xattr ||
stat`: for a non-null version_id xattr the reported `mtimeNsBigint` is
parsed back out of the xattr string, otherwise it is the stat's. -/
def FsFile.info_mtime (f : FsFile) : Nat :=
  match f.vid with
  | VersionId.mtimeIno m _ => m
  | VersionId.null => f.mtimeNs

/-- State of one key: the latest-path file and the key's `.versions/`
entries (filename version-id part, file). -/
structure KeyState where
  latest : Option FsFile
  versions : List (VersionId × FsFile)
deriving DecidableEq, Repr

def KeyState.init : KeyState := { latest := none, versions := [] }

/-- Directory lookup of `.versions/<basename>_<v>` (file named by `v`). -/
def versions_lookup (vs : List (VersionId × FsFile)) (v : VersionId) : Option FsFile :=
  (List.find? (fun e => e.1 == v) vs).map (fun e => e.2)

/-- Unlink of `.versions/<basename>_<v>` (no error if absent). -/
def versions_erase (vs : List (VersionId × FsFile)) (v : VersionId) :
    List (VersionId × FsFile) :=
  vs.eraseP (fun e => e.1 == v)

/-- `_get_version_id_by_mode` (lines 2097-2101): stat-derived id when
enabled, `null` when suspended.  (The source throws for DISABLED; every
call site is behind a not-disabled guard, and the model is likewise only
applied there — DISABLED is mapped to `null` as an unreachable default.) -/
def get_version_id_by_mode (mode : VersioningMode) (st : StatLite) : VersionId :=
  match mode with
  | VersioningMode.ENABLED => VersionId.mtimeIno st.mtimeNs st.ino
  | VersioningMode.SUSPENDED => VersionId.null
  | VersioningMode.DISABLED => VersionId.null

/-- The scan body of `find_max_version_past` over the entries that pass
the line-2518 name check: each entry's sort key is the mtime parsed from
its filename suffix, falling back to `_get_version_info` (hence the
file) for a `_null` suffix; `reduce` keeps the first entry with the
strictly largest value, starting from 0; a final `> 0` check guards the
result, which is the `_get_version_info` of the winning entry. -/
def find_max_entry_mtime (name_vid : VersionId) (f : FsFile) : Nat :=
  match name_vid with
  | VersionId.mtimeIno m _ => m
  | VersionId.null => f.info_mtime

def find_max_version_scan (s : KeyState) : Option (VersionId × FsFile) :=
  let max := s.versions.foldl
    (fun (acc : Nat × Option (VersionId × FsFile)) cur =>
      let m := find_max_entry_mtime cur.1 cur.2
      if m > acc.1 then (m, some cur) else acc)
    (0, none)
  if max.1 > 0 then max.2 else none

/-- `find_max_version_past` (lines 2511-2532).  Every entry of this
key in `.versions/` is named `<basename(key)>_<version-id>` (by
`_get_version_path`, line 2120), so for each of them the line-2518
check `entry.name.slice(0, index) !== key` compares `basename(key)`
against the FULL key: for keys containing `/` no entry ever passes and
the scan returns nothing; for slash-free keys all of this key's
entries pass. -/
def find_max_version_past (key : String) (s : KeyState) : Option (VersionId × FsFile) :=
  if basenameOf key == key then find_max_version_scan s else none

/-- `_delete_null_version_from_versions_directory` (lines 2428-2454):
safe-unlink `.versions/<basename>_null` if that entry exists. -/
def delete_null_version_from_versions_directory (s : KeyState) : KeyState :=
  { s with versions := versions_erase s.versions VersionId.null }

/-- `_move_to_dest_version` (lines 1186-1241), one sequential attempt.
`staging` is the staged upload file, already carrying the xattrs written
by `_finish_upload`.  Steps: (2) suspended handling of the null version,
(3) displacement of the latest to `.versions/` when enabled, or suspended
with a non-null latest (a name collision in `.versions/` makes
`safe_link` fail and the attempt throw, keeping the state reached), and
(4) the move of the staging file onto the key path. -/
def move_to_dest_version (mode : VersioningMode) (s : KeyState) (staging : FsFile) : KeyState :=
  let latest_ver_info := s.latest
  let s1 :=
    if mode == VersioningMode.SUSPENDED then
      if (latest_ver_info.map FsFile.vid) = some VersionId.null then
        { s with latest := none }
      else delete_null_version_from_versions_directory s
    else s
  match latest_ver_info with
  | some f =>
      if mode == VersioningMode.ENABLED
          || (mode == VersioningMode.SUSPENDED && !(f.vid == VersionId.null)) then
        match versions_lookup s1.versions f.vid with
        | some _ => s1
        | none => { latest := some staging, versions := (f.vid, f) :: s1.versions }
      else { s1 with latest := some staging }
  | none => { s1 with latest := some staging }

/-- `_finish_upload` versioning xattrs (lines 1100-1103) together with
`_assign_versions_to_fs_xattr` (lines 1676-1687): the staged file gets
`version_id` by mode and `prev_version_id` from the current latest when
present, else from `find_max_version_past`; then `_move_to_dest` runs
`_move_to_dest_version` (not disabled) or a plain rename (disabled,
lines 1149-1154, which leaves no version xattrs on the file). -/
def upload_object_step (mode : VersioningMode) (key : String) (s : KeyState) (st : StatLite) :
    KeyState :=
  if mode == VersioningMode.DISABLED then
    { s with latest := some { mtimeNs := st.mtimeNs, ino := st.ino, version_id_xattr := none,
                              delete_marker := false, prev_version_id := none } }
  else
    let cur_ver_info := s.latest
    let prev : Option VersionId :=
      match cur_ver_info with
      | some f => some f.vid
      | none => (find_max_version_past key s).map (fun e => e.2.vid)
    let staging : FsFile :=
      { mtimeNs := st.mtimeNs, ino := st.ino,
        version_id_xattr := some (get_version_id_by_mode mode st),
        delete_marker := false, prev_version_id := prev }
    move_to_dest_version mode s staging

/-- `_create_delete_marker` (lines 2457-2502): write a fresh zero-byte
file, give it `version_id` by mode and `delete_marker=true`;
`prev_version_id` comes from the deleted version's info, except in
suspended mode when the deleted latest was the null version, where it is
recomputed through `find_max_version_past`; finally `fs.rename` it into
`.versions/<basename>_<id>` (rename replaces an existing entry). -/
def create_delete_marker (mode : VersioningMode) (key : String) (s : KeyState)
    (deleted_version_info : Option FsFile) (st : StatLite) : KeyState :=
  let dm_vid := get_version_id_by_mode mode st
  let prev : Option VersionId :=
    if mode == VersioningMode.SUSPENDED
        && ((deleted_version_info.map FsFile.vid) == some VersionId.null) then
      (find_max_version_past key s).map (fun e => e.2.vid)
    else
      match deleted_version_info with
      | some f => some f.vid
      | none => (find_max_version_past key s).map (fun e => e.2.vid)
  let marker : FsFile :=
    { mtimeNs := st.mtimeNs, ino := st.ino, version_id_xattr := some dm_vid,
      delete_marker := true, prev_version_id := prev }
  { s with versions := (dm_vid, marker) :: versions_erase s.versions dm_vid }

/-- `_delete_latest_version` (lines 2371-2423): displace the latest to
`.versions/` when enabled or suspended-with-non-null-latest (then drop
the null sidecar version), safe-unlink a suspended null latest, and
create the delete marker.  A displacement collision throws before the
marker is created. -/
def delete_latest_version (mode : VersioningMode) (key : String) (s : KeyState) (st : StatLite) :
    KeyState :=
  match s.latest with
  | some f =>
      let suspended_and_latest_is_not_null :=
        mode == VersioningMode.SUSPENDED && !(f.vid == VersionId.null)
      if mode == VersioningMode.ENABLED || suspended_and_latest_is_not_null then
        match versions_lookup s.versions f.vid with
        | some _ => s
        | none =>
            let s1 : KeyState := { latest := none, versions := (f.vid, f) :: s.versions }
            let s2 := if suspended_and_latest_is_not_null then
                delete_null_version_from_versions_directory s1
              else s1
            create_delete_marker mode key s2 (some f) st
      else
        create_delete_marker mode key { s with latest := none } (some f) st
  | none => create_delete_marker mode key s none st

/-- The version info recorded for a deleted version by
`_delete_single_object_versioned` (lines 2213-2245): the victim's info
plus whether the resolved path was the latest path. -/
structure DeletedInfo where
  deleted_latest : Bool
  vid : VersionId
  mtimeNs : Nat
  delete_marker : Bool
  prev_version_id : Option VersionId
deriving DecidableEq, Repr

def FsFile.to_deleted_info (f : FsFile) (latest : Bool) : DeletedInfo :=
  { deleted_latest := latest, vid := f.vid, mtimeNs := f.info_mtime,
    delete_marker := f.delete_marker, prev_version_id := f.prev_version_id }

/-- `_find_version_path` target resolution (lines 2164-2174) followed by
`_delete_single_object_versioned`: the latest path is chosen when the
latest's version id string equals the requested id; a missing victim
returns no info and changes nothing. -/
def delete_single_object_versioned (s : KeyState) (vid : VersionId) :
    Option (KeyState × DeletedInfo) :=
  match s.latest with
  | some f =>
      if f.vid == vid then
        some ({ s with latest := none }, f.to_deleted_info true)
      else
        match versions_lookup s.versions vid with
        | none => none
        | some g => some ({ s with versions := versions_erase s.versions vid },
                          g.to_deleted_info false)
  | none =>
      match versions_lookup s.versions vid with
      | none => none
      | some g => some ({ s with versions := versions_erase s.versions vid },
                        g.to_deleted_info false)

/-- `get_prev_version_info` (lines 2504-2508): the version info of
`.versions/<basename>_<prev_version_id>` when that entry exists. -/
def get_prev_version_info (s : KeyState) (p : VersionId) : Option (VersionId × FsFile) :=
  (versions_lookup s.versions p).map (fun f => (p, f))

/-- The candidate computation of `_promote_version_to_latest` (lines
2331-2333): `(prev_version_id && get_prev_version_info(...)) ||
find_max_version_past(...)`, where `prev_version_id` is the deleted
version's hint, consulted only when the deleted path was the latest
(line 2324: `deleted_latest && deleted_version_info.prev_version_id`). -/
def promote_candidate (key : String) (s : KeyState) (del : Option DeletedInfo) :
    Option (VersionId × FsFile) :=
  let deleted_latest := (del.map (fun d => d.deleted_latest)).getD false
  let prev_version_id : Option VersionId :=
    if deleted_latest then del.bind (fun d => d.prev_version_id) else none
  (prev_version_id.bind (get_prev_version_info s)).orElse
    (fun _ => find_max_version_past key s)

/-- The skip test of `_promote_version_to_latest` (lines 2337-2339):
skip when the deleted file is a delete marker whose mtime is SMALLER
than the candidate's (`deleted_version_info.mtimeNsBigint <
max_past_ver_info.mtimeNsBigint`). -/
def promote_skip (del : Option DeletedInfo) (g : FsFile) : Bool :=
  (del.map (fun d => d.delete_marker && decide (d.mtimeNs < g.info_mtime))).getD false

/-- `_promote_version_to_latest` (lines 2321-2355), one sequential
attempt: nothing happens when a latest already exists; no candidate, a
delete-marker candidate, or the skip test firing all return without
moving; otherwise the candidate is safe-moved onto the key path. -/
def promote_version_to_latest (key : String) (s : KeyState) (del : Option DeletedInfo) :
    KeyState :=
  match s.latest with
  | some _ => s
  | none =>
      match promote_candidate key s del with
      | none => s
      | some (v, g) =>
          if g.delete_marker then s
          else if promote_skip del g then s
          else { latest := some g, versions := versions_erase s.versions v }

/-- `_delete_version_id` (lines 2297-2312): delete the named version;
when the victim was the latest or a delete marker, attempt promotion. -/
def delete_version_id_step (key : String) (s : KeyState) (vid : VersionId) : KeyState :=
  match delete_single_object_versioned s vid with
  | none => s
  | some (s2, del) =>
      if del.deleted_latest || del.delete_marker then
        promote_version_to_latest key s2 (some del)
      else s2

/-- `delete_object` with an explicit version id under DISABLED
versioning (lines 1493-1512): `_find_version_path` resolves the latest
path when the latest's version id matches, else the sidecar path, and
`_delete_single_object` unlinks whatever is there (ENOENT ignored). -/
def delete_object_disabled_versioned (s : KeyState) (vid : VersionId) : KeyState :=
  let target_is_latest :=
    match s.latest with
    | some f => f.vid == vid
    | none => false
  if target_is_latest then { s with latest := none }
  else { s with versions := versions_erase s.versions vid }

/-- One client operation on the key: an `upload_object`, a
`delete_object` without a version id (`st` is the stat of the zero-byte
delete-marker file the source writes), or a `delete_object` with an
explicit version id. -/
inductive Op where
  | put (st : StatLite) : Op
  | del (st : StatLite) : Op
  | delv (vid : VersionId) : Op
deriving DecidableEq, Repr

/-- Dispatch of one operation under the bucket's current versioning mode
(`delete_object`, lines 1493-1512 chooses between `_delete_single_object`,
`_delete_version_id` and `_delete_latest_version`). -/
def step (key : String) (s : KeyState) (p : VersioningMode × Op) : KeyState :=
  match p.2 with
  | Op.put st => upload_object_step p.1 key s st
  | Op.del st =>
      if p.1 == VersioningMode.DISABLED then { s with latest := none }
      else delete_latest_version p.1 key s st
  | Op.delv vid =>
      if p.1 == VersioningMode.DISABLED then delete_object_disabled_versioned s vid
      else delete_version_id_step key s vid

/-- Run a sequence of operations on one key from a state. -/
def run_ops (key : String) (ops : List (VersioningMode × Op)) (s : KeyState) : KeyState :=
  ops.foldl (step key) s

/-! ## The at-most-one-null-version invariant (claim C1) -/

/-- Whether a `.versions/` entry's file carries version id `null`. -/
def isNullFile (e : VersionId × FsFile) : Bool := e.2.vid == VersionId.null

/-- Whether a `.versions/` entry's filename names version id `null`. -/
def isNullName (e : VersionId × FsFile) : Bool := e.1 == VersionId.null

/-- Number of `.versions/` files of the key carrying version id `null`. -/
def vnull (vs : List (VersionId × FsFile)) : Nat := vs.countP isNullFile

/-- Number of latest-path files (0 or 1) carrying version id `null`. -/
def lnull : Option FsFile → Nat
  | some f => if f.vid == VersionId.null then 1 else 0
  | none => 0

/-- Total number of files of the key carrying version id `null`. -/
def nullCount (s : KeyState) : Nat := lnull s.latest + vnull s.versions

/-- Well-formedness of a key state: every `.versions/` entry is filed
under its own version id (which is how the source names displaced
versions and delete markers), and entry names are unique (filenames in
one directory). -/
def WfState (s : KeyState) : Prop :=
  (∀ e ∈ s.versions, e.2.vid = e.1) ∧ (s.versions.map Prod.fst).Nodup

/-- The inductive invariant: well-formed and at most one null version. -/
def KeyInv (s : KeyState) : Prop := WfState s ∧ nullCount s ≤ 1

instance (s : KeyState) : Decidable (WfState s) := by
  unfold WfState
  infer_instance

instance (s : KeyState) : Decidable (KeyInv s) := by
  unfold KeyInv
  infer_instance

theorem countP_eraseP_eq_zero {α : Type} (p : α → Bool) (l : List α) (h : l.countP p ≤ 1) :
    (l.eraseP p).countP p = 0 := by
  induction l with
  | nil => simp
  | cons a t ih =>
    by_cases hp : p a
    · rw [List.eraseP_cons_of_pos hp]
      rw [List.countP_cons] at h
      simp [hp] at h
      simpa using h
    · rw [List.eraseP_cons_of_neg (by simpa using hp)]
      rw [List.countP_cons] at h ⊢
      simp only [hp, if_false]
      simp only [hp] at h
      exact ih (by simpa using h)

theorem countP_fst_le_one_of_nodup (vs : List (VersionId × FsFile)) (v : VersionId)
    (h : (vs.map Prod.fst).Nodup) : vs.countP (fun e => e.1 == v) ≤ 1 := by
  induction vs with
  | nil => simp
  | cons a t ih =>
    rw [List.countP_cons]
    have h2 : (List.map Prod.fst (a :: t)).Nodup := h
    rw [List.map_cons, List.nodup_cons] at h2
    by_cases hp : a.1 == v
    · have hv : a.1 = v := by simpa using hp
      have hz : t.countP (fun e => e.1 == v) = 0 := by
        rw [List.countP_eq_zero]
        intro e he hev
        exact h2.1 (hv ▸ (by simpa using hev : e.1 = v) ▸ List.mem_map_of_mem Prod.fst he)
      simp [hp, hz]
    · have hp2 : (a.1 == v) = false := by simpa using hp
      have := ih h2.2
      simpa [hp2] using this

theorem not_mem_map_fst_eraseP (vs : List (VersionId × FsFile)) (v : VersionId)
    (h : (vs.map Prod.fst).Nodup) :
    v ∉ (vs.eraseP (fun e => e.1 == v)).map Prod.fst := by
  induction vs with
  | nil => simp
  | cons a t ih =>
    have h2 : (List.map Prod.fst (a :: t)).Nodup := h
    rw [List.map_cons, List.nodup_cons] at h2
    by_cases hp : a.1 == v
    · simp only [List.eraseP_cons, hp, cond_true]
      have hv : a.1 = v := by simpa using hp
      rw [← hv]
      exact h2.1
    · have hp2 : (a.1 == v) = false := by simpa using hp
      simp only [List.eraseP_cons, hp2, cond_false]
      simp only [List.map_cons, List.mem_cons]
      push_neg
      refine ⟨fun hv => ?_, ih h2.2⟩
      exact hp (by simp [hv])

theorem versions_lookup_none (vs : List (VersionId × FsFile)) (v : VersionId)
    (h : versions_lookup vs v = none) : ∀ e ∈ vs, e.1 ≠ v := by
  intro e he
  have h2 : List.find? (fun e => e.1 == v) vs = none := by
    cases hf : List.find? (fun e => e.1 == v) vs with
    | none => rfl
    | some x => rw [versions_lookup, hf] at h; simp at h
  have := List.find?_eq_none.mp h2 e he
  simpa using this

theorem versions_lookup_some_mem (vs : List (VersionId × FsFile)) (v : VersionId) (f : FsFile)
    (h : versions_lookup vs v = some f) : (v, f) ∈ vs := by
  rw [versions_lookup] at h
  cases hf : List.find? (fun e => e.1 == v) vs with
  | none => rw [hf] at h; simp at h
  | some e =>
      rw [hf] at h
      have hm := List.mem_of_find?_eq_some hf
      have hp := List.find?_some hf
      have h1 : e.1 = v := by simpa using hp
      have hef : e.2 = f := by simpa using h
      have : (v, f) = e := by
        cases e
        simp only at h1 hef
        simp [h1, hef]
      rw [this]
      exact hm

theorem vnull_eq_countP_name (vs : List (VersionId × FsFile))
    (hc : ∀ e ∈ vs, e.2.vid = e.1) : vnull vs = vs.countP isNullName := by
  exact List.countP_congr (fun e he => by simp [isNullFile, isNullName, hc e he])

theorem vnull_erase_null (vs : List (VersionId × FsFile))
    (hc : ∀ e ∈ vs, e.2.vid = e.1) (hn : (vs.map Prod.fst).Nodup) :
    vnull (versions_erase vs VersionId.null) = 0 := by
  have hsub : (versions_erase vs VersionId.null).Sublist vs := List.eraseP_sublist vs
  have hc2 : ∀ e ∈ versions_erase vs VersionId.null, e.2.vid = e.1 :=
    fun e he => hc e (hsub.subset he)
  rw [vnull_eq_countP_name _ hc2]
  have : vs.countP (fun e => e.1 == VersionId.null) ≤ 1 := countP_fst_le_one_of_nodup vs _ hn
  exact countP_eraseP_eq_zero _ vs this

theorem vnull_erase_le (vs : List (VersionId × FsFile)) (v : VersionId) :
    vnull (versions_erase vs v) ≤ vnull vs :=
  (List.eraseP_sublist vs).countP_le isNullFile

theorem wf_versions_erase (vs : List (VersionId × FsFile)) (v : VersionId)
    (hc : ∀ e ∈ vs, e.2.vid = e.1) (hn : (vs.map Prod.fst).Nodup) :
    (∀ e ∈ versions_erase vs v, e.2.vid = e.1) ∧
      ((versions_erase vs v).map Prod.fst).Nodup := by
  have hsub : (versions_erase vs v).Sublist vs := List.eraseP_sublist vs
  exact ⟨fun e he => hc e (hsub.subset he), (hsub.map Prod.fst).nodup hn⟩

theorem find_max_version_scan_mem (s : KeyState) (e : VersionId × FsFile)
    (h : find_max_version_scan s = some e) : e ∈ s.versions := by
  rw [find_max_version_scan] at h
  simp only at h
  have aux : ∀ (vs : List (VersionId × FsFile)) (acc : Nat × Option (VersionId × FsFile)),
      (vs.foldl (fun acc cur =>
        let m := find_max_entry_mtime cur.1 cur.2
        if m > acc.1 then (m, some cur) else acc) acc).2 = some e →
      acc.2 = some e ∨ e ∈ vs := by
    intro vs
    induction vs with
    | nil => intro acc h2; exact Or.inl h2
    | cons a t ih =>
      intro acc h2
      simp only [List.foldl_cons] at h2
      rcases ih _ h2 with h3 | h3
      · by_cases hgt : find_max_entry_mtime a.1 a.2 > acc.1
        · simp only [hgt, if_true] at h3
          right
          simp only [Option.some_inj] at h3
          simp [← h3]
        · simp only [hgt, if_false] at h3
          exact Or.inl h3
      · exact Or.inr (List.mem_cons_of_mem a h3)
  split at h
  · rcases aux s.versions (0, none) h with h2 | h2
    · simp at h2
    · exact h2
  · simp at h

theorem find_max_version_past_mem (key : String) (s : KeyState) (e : VersionId × FsFile)
    (h : find_max_version_past key s = some e) : e ∈ s.versions := by
  rw [find_max_version_past] at h
  split at h
  · exact find_max_version_scan_mem s e h
  · simp at h

theorem wfState_mk (l : Option FsFile) (vs : List (VersionId × FsFile)) :
    WfState { latest := l, versions := vs } ↔
      (∀ e ∈ vs, e.2.vid = e.1) ∧ (vs.map Prod.fst).Nodup := Iff.rfl

theorem nullCount_mk (l : Option FsFile) (vs : List (VersionId × FsFile)) :
    nullCount { latest := l, versions := vs } = lnull l + vnull vs := rfl

theorem lnull_some (f : FsFile) : lnull (some f) = if f.vid = VersionId.null then 1 else 0 := by
  simp [lnull]

theorem vnull_cons (v : VersionId) (f : FsFile) (vs : List (VersionId × FsFile)) :
    vnull ((v, f) :: vs) = vnull vs + (if f.vid = VersionId.null then 1 else 0) := by
  simp [vnull, List.countP_cons, isNullFile]


/-! Branch equations for `move_to_dest_version` (one per path through the
suspended-null handling, the displacement and the final move). -/

theorem move_enabled_no_latest (s : KeyState) (staging : FsFile) (hL : s.latest = none) :
    move_to_dest_version VersioningMode.ENABLED s staging
      = { latest := some staging, versions := s.versions } := by
  rw [move_to_dest_version, hL]
  rfl

theorem move_enabled_collision (s : KeyState) (staging : FsFile) (f g : FsFile)
    (hL : s.latest = some f) (hlk : versions_lookup s.versions f.vid = some g) :
    move_to_dest_version VersioningMode.ENABLED s staging = s := by
  rw [move_to_dest_version, hL]
  simp [hlk]

theorem move_enabled_displace (s : KeyState) (staging : FsFile) (f : FsFile)
    (hL : s.latest = some f) (hlk : versions_lookup s.versions f.vid = none) :
    move_to_dest_version VersioningMode.ENABLED s staging
      = { latest := some staging, versions := (f.vid, f) :: s.versions } := by
  rw [move_to_dest_version, hL]
  simp [hlk]

theorem move_suspended_no_latest (s : KeyState) (staging : FsFile) (hL : s.latest = none) :
    move_to_dest_version VersioningMode.SUSPENDED s staging
      = { latest := some staging, versions := versions_erase s.versions VersionId.null } := by
  rw [move_to_dest_version, hL]
  simp [delete_null_version_from_versions_directory]

theorem move_suspended_null_latest (s : KeyState) (staging : FsFile) (f : FsFile)
    (hL : s.latest = some f) (hf : f.vid = VersionId.null) :
    move_to_dest_version VersioningMode.SUSPENDED s staging
      = { latest := some staging, versions := s.versions } := by
  rw [move_to_dest_version, hL]
  simp [hf]

theorem move_suspended_collision (s : KeyState) (staging : FsFile) (f g : FsFile)
    (hL : s.latest = some f) (hf : f.vid ≠ VersionId.null)
    (hlk : versions_lookup (versions_erase s.versions VersionId.null) f.vid = some g) :
    move_to_dest_version VersioningMode.SUSPENDED s staging
      = { latest := some f, versions := versions_erase s.versions VersionId.null } := by
  rw [move_to_dest_version, hL]
  simp [delete_null_version_from_versions_directory, hf, hlk, hL]

theorem move_suspended_displace (s : KeyState) (staging : FsFile) (f : FsFile)
    (hL : s.latest = some f) (hf : f.vid ≠ VersionId.null)
    (hlk : versions_lookup (versions_erase s.versions VersionId.null) f.vid = none) :
    move_to_dest_version VersioningMode.SUSPENDED s staging
      = { latest := some staging,
          versions := (f.vid, f) :: versions_erase s.versions VersionId.null } := by
  rw [move_to_dest_version, hL]
  simp [delete_null_version_from_versions_directory, hf, hlk]

theorem wf_cons_entry (vs : List (VersionId × FsFile)) (f : FsFile)
    (hc : ∀ e ∈ vs, e.2.vid = e.1) (hn : (vs.map Prod.fst).Nodup)
    (hnm : ∀ e ∈ vs, e.1 ≠ f.vid) :
    (∀ e ∈ (f.vid, f) :: vs, e.2.vid = e.1) ∧ (((f.vid, f) :: vs).map Prod.fst).Nodup := by
  constructor
  · intro e he
    rcases List.mem_cons.mp he with he1 | he2
    · rw [he1]
    · exact hc e he2
  · rw [List.map_cons, List.nodup_cons]
    refine ⟨?_, hn⟩
    intro hmem
    rcases List.mem_map.mp hmem with ⟨e, he, hev⟩
    exact hnm e he hev

theorem keyinv_move_enabled (s : KeyState) (staging : FsFile) (h : KeyInv s)
    (hst : staging.vid ≠ VersionId.null) :
    KeyInv (move_to_dest_version VersioningMode.ENABLED s staging) := by
  obtain ⟨⟨hc, hn⟩, hcount⟩ := h
  cases hL : s.latest with
  | none =>
      rw [move_enabled_no_latest s staging hL]
      refine ⟨⟨hc, hn⟩, ?_⟩
      rw [nullCount, hL] at hcount
      rw [nullCount_mk, lnull_some, if_neg hst]
      simpa [lnull] using hcount
  | some f =>
      cases hlk : versions_lookup s.versions f.vid with
      | some g =>
          rw [move_enabled_collision s staging f g hL hlk]
          exact ⟨⟨hc, hn⟩, hcount⟩
      | none =>
          rw [move_enabled_displace s staging f hL hlk]
          rw [nullCount, hL, lnull_some] at hcount
          refine ⟨wf_cons_entry s.versions f hc hn (versions_lookup_none s.versions f.vid hlk), ?_⟩
          rw [nullCount_mk, lnull_some, if_neg hst, vnull_cons]
          by_cases hf : f.vid = VersionId.null <;>
            simp only [hf, if_true, if_false] at hcount ⊢ <;> omega

theorem keyinv_move_suspended (s : KeyState) (staging : FsFile) (h : KeyInv s)
    (hst : staging.vid = VersionId.null) :
    KeyInv (move_to_dest_version VersioningMode.SUSPENDED s staging) := by
  obtain ⟨⟨hc, hn⟩, hcount⟩ := h
  have hwfe := wf_versions_erase s.versions VersionId.null hc hn
  cases hL : s.latest with
  | none =>
      rw [move_suspended_no_latest s staging hL]
      refine ⟨hwfe, ?_⟩
      rw [nullCount_mk, lnull_some, if_pos hst, vnull_erase_null s.versions hc hn]
  | some f =>
      by_cases hf : f.vid = VersionId.null
      · rw [move_suspended_null_latest s staging f hL hf]
        rw [nullCount, hL, lnull_some, if_pos hf] at hcount
        refine ⟨⟨hc, hn⟩, ?_⟩
        rw [nullCount_mk, lnull_some, if_pos hst]
        omega
      · cases hlk : versions_lookup (versions_erase s.versions VersionId.null) f.vid with
        | some g =>
            rw [move_suspended_collision s staging f g hL hf hlk]
            refine ⟨hwfe, ?_⟩
            rw [nullCount_mk, lnull_some, if_neg hf, vnull_erase_null s.versions hc hn]
            omega
        | none =>
            rw [move_suspended_displace s staging f hL hf hlk]
            refine ⟨wf_cons_entry _ f hwfe.1 hwfe.2 (versions_lookup_none _ f.vid hlk), ?_⟩
            rw [nullCount_mk, lnull_some, if_pos hst, vnull_cons, if_neg hf,
              vnull_erase_null s.versions hc hn]

theorem keyinv_upload (mode : VersioningMode) (key : String) (s : KeyState) (st : StatLite)
    (hm : mode ≠ VersioningMode.DISABLED) (h : KeyInv s) :
    KeyInv (upload_object_step mode key s st) := by
  rw [upload_object_step]
  cases mode with
  | DISABLED => exact absurd rfl hm
  | ENABLED =>
      simp only [show (VersioningMode.ENABLED == VersioningMode.DISABLED) = false from rfl,
        Bool.false_eq_true, if_false]
      refine keyinv_move_enabled s _ h ?_
      simp [FsFile.vid, get_version_id_by_mode]
  | SUSPENDED =>
      simp only [show (VersioningMode.SUSPENDED == VersioningMode.DISABLED) = false from rfl,
        Bool.false_eq_true, if_false]
      refine keyinv_move_suspended s _ h ?_
      simp [FsFile.vid, get_version_id_by_mode]

theorem keyinv_insert_marker (s : KeyState) (dm : VersionId) (marker : FsFile)
    (hc : ∀ e ∈ s.versions, e.2.vid = e.1) (hn : (s.versions.map Prod.fst).Nodup)
    (hmv : marker.vid = dm) (hlat : s.latest = none) (hcount : nullCount s ≤ 1) :
    KeyInv { s with versions := (dm, marker) :: versions_erase s.versions dm } := by
  have hwfe := wf_versions_erase s.versions dm hc hn
  have hnm : dm ∉ (versions_erase s.versions dm).map Prod.fst :=
    not_mem_map_fst_eraseP s.versions dm hn
  constructor
  · constructor
    · intro e he
      rcases List.mem_cons.mp he with he1 | he2
      · rw [he1]; exact hmv
      · exact hwfe.1 e he2
    · rw [List.map_cons, List.nodup_cons]
      exact ⟨hnm, hwfe.2⟩
  · show lnull s.latest + vnull ((dm, marker) :: versions_erase s.versions dm) ≤ 1
    rw [hlat, vnull_cons, hmv]
    rw [nullCount, hlat] at hcount
    simp only [lnull] at hcount ⊢
    by_cases hdm : dm = VersionId.null
    · rw [if_pos hdm, hdm, vnull_erase_null s.versions hc hn]
    · rw [if_neg hdm]
      have := vnull_erase_le s.versions dm
      omega

theorem keyinv_create_delete_marker (mode : VersioningMode) (key : String) (s : KeyState)
    (del : Option FsFile) (st : StatLite)
    (hc : ∀ e ∈ s.versions, e.2.vid = e.1) (hn : (s.versions.map Prod.fst).Nodup)
    (hlat : s.latest = none) (hcount : nullCount s ≤ 1) :
    KeyInv (create_delete_marker mode key s del st) := by
  rw [create_delete_marker.eq_def]
  exact keyinv_insert_marker s (get_version_id_by_mode mode st) _ hc hn
    (by simp [FsFile.vid]) hlat hcount

theorem keyinv_delete_latest (mode : VersioningMode) (key : String) (s : KeyState)
    (st : StatLite) (hm : mode ≠ VersioningMode.DISABLED) (h : KeyInv s) :
    KeyInv (delete_latest_version mode key s st) := by
  obtain ⟨⟨hc, hn⟩, hcount⟩ := h
  rw [delete_latest_version]
  cases hL : s.latest with
  | none =>
      dsimp only
      exact keyinv_create_delete_marker mode key s none st hc hn hL hcount
  | some f =>
      dsimp only
      cases mode with
      | DISABLED => exact absurd rfl hm
      | ENABLED =>
          simp only [show (VersioningMode.ENABLED == VersioningMode.SUSPENDED) = false from rfl,
            show (VersioningMode.ENABLED == VersioningMode.ENABLED) = true from rfl,
            Bool.false_and, Bool.true_or, if_true, Bool.false_eq_true, if_false]
          cases hlk : versions_lookup s.versions f.vid with
          | some g =>
              simp only [hlk]
              exact ⟨⟨hc, hn⟩, hcount⟩
          | none =>
              simp only [hlk]
              have hwf1 := wf_cons_entry s.versions f hc hn
                (versions_lookup_none s.versions f.vid hlk)
              refine keyinv_create_delete_marker _ _ _ _ _ hwf1.1 hwf1.2 rfl ?_
              rw [nullCount, hL, lnull_some] at hcount
              show lnull none + vnull ((f.vid, f) :: s.versions) ≤ 1
              rw [vnull_cons]
              simp only [lnull]
              by_cases hf : f.vid = VersionId.null <;>
                simp only [hf, if_true, if_false] at hcount ⊢ <;> omega
      | SUSPENDED =>
          simp only [show (VersioningMode.SUSPENDED == VersioningMode.SUSPENDED) = true from rfl,
            show (VersioningMode.SUSPENDED == VersioningMode.ENABLED) = false from rfl,
            Bool.true_and, Bool.false_or, Bool.false_eq_true, if_false]
          by_cases hf : f.vid = VersionId.null
          · have hfb : (f.vid == VersionId.null) = true := by simpa using hf
            simp only [hfb, Bool.not_true, Bool.false_eq_true, if_false]
            refine keyinv_create_delete_marker _ _ _ _ _ hc hn rfl ?_
            rw [nullCount, hL, lnull_some, if_pos hf] at hcount
            show lnull none + vnull s.versions ≤ 1
            simp only [lnull]
            omega
          · have hfb : (f.vid == VersionId.null) = false := by simpa using hf
            simp only [hfb, Bool.not_false, if_true]
            cases hlk : versions_lookup s.versions f.vid with
            | some g =>
                simp only [hlk]
                exact ⟨⟨hc, hn⟩, hcount⟩
            | none =>
                simp only [hlk]
                rw [delete_null_version_from_versions_directory]
                have hwf1 := wf_cons_entry s.versions f hc hn
                  (versions_lookup_none s.versions f.vid hlk)
                have hwf2 := wf_versions_erase _ VersionId.null hwf1.1 hwf1.2
                refine keyinv_create_delete_marker _ _ _ _ _ hwf2.1 hwf2.2 rfl ?_
                show lnull none +
                  vnull (versions_erase ((f.vid, f) :: s.versions) VersionId.null) ≤ 1
                rw [vnull_erase_null _ hwf1.1 hwf1.2]
                simp [lnull]

theorem candidate_orElse_mem (key : String) (s : KeyState) (po : Option VersionId)
    (vg : VersionId × FsFile)
    (h : (po.bind (get_prev_version_info s)).orElse (fun _ => find_max_version_past key s)
      = some vg) : vg ∈ s.versions := by
  cases hpo : po.bind (get_prev_version_info s) with
  | some x =>
      rw [hpo] at h
      have hx : x = vg := by simpa [Option.orElse] using h
      subst hx
      cases po with
      | none => simp at hpo
      | some p =>
          have hpo2 : get_prev_version_info s p = some x := hpo
          rw [get_prev_version_info] at hpo2
          cases hlk : versions_lookup s.versions p with
          | none => rw [hlk] at hpo2; simp at hpo2
          | some g =>
              rw [hlk] at hpo2
              have hpg : (p, g) = x := Option.some.inj hpo2
              rw [← hpg]
              exact versions_lookup_some_mem s.versions p g hlk
  | none =>
      rw [hpo] at h
      have h2 : find_max_version_past key s = some vg := by simpa [Option.orElse] using h
      exact find_max_version_past_mem key s vg h2

theorem promote_candidate_mem (key : String) (s : KeyState) (del : Option DeletedInfo)
    (vg : VersionId × FsFile) (h : promote_candidate key s del = some vg) : vg ∈ s.versions := by
  rw [promote_candidate] at h
  exact candidate_orElse_mem key s _ vg h

theorem keyinv_promote (key : String) (s : KeyState) (del : Option DeletedInfo) (h : KeyInv s) :
    KeyInv (promote_version_to_latest key s del) := by
  obtain ⟨⟨hc, hn⟩, hcount⟩ := h
  rw [promote_version_to_latest]
  cases hL : s.latest with
  | some f => exact ⟨⟨hc, hn⟩, hcount⟩
  | none =>
      dsimp only
      split
      · exact ⟨⟨hc, hn⟩, hcount⟩
      next v g hmax =>
        have hmem : (v, g) ∈ s.versions := promote_candidate_mem key s del (v, g) hmax
        have hg : g.vid = v := hc (v, g) hmem
        by_cases hdm : g.delete_marker = true
        · rw [if_pos hdm]
          exact ⟨⟨hc, hn⟩, hcount⟩
        · rw [if_neg hdm]
          by_cases hskip : promote_skip del g = true
          · rw [if_pos hskip]
            exact ⟨⟨hc, hn⟩, hcount⟩
          · rw [if_neg hskip]
            have hwfe := wf_versions_erase s.versions v hc hn
            refine ⟨hwfe, ?_⟩
            rw [nullCount, hL] at hcount
            simp only [lnull] at hcount
            show lnull (some g) + vnull (versions_erase s.versions v) ≤ 1
            rw [lnull_some]
            by_cases hgn : g.vid = VersionId.null
            · rw [if_pos hgn]
              have hv : v = VersionId.null := by rw [← hg, hgn]
              rw [hv, vnull_erase_null s.versions hc hn]
            · rw [if_neg hgn]
              have := vnull_erase_le s.versions v
              omega

theorem keyinv_delete_single (s : KeyState) (vid : VersionId) (out : KeyState × DeletedInfo)
    (hd : delete_single_object_versioned s vid = some out) (h : KeyInv s) : KeyInv out.1 := by
  obtain ⟨⟨hc, hn⟩, hcount⟩ := h
  rw [delete_single_object_versioned] at hd
  cases hL : s.latest with
  | some f =>
      rw [hL] at hd
      dsimp only at hd
      by_cases hfv : (f.vid == vid) = true
      · simp only [hfv, if_true, Option.some_inj] at hd
        rw [← hd]
        refine ⟨⟨hc, hn⟩, ?_⟩
        show lnull none + vnull s.versions ≤ 1
        rw [nullCount] at hcount
        simp only [lnull]
        omega
      · simp only [hfv, Bool.false_eq_true, if_false] at hd
        cases hlk : versions_lookup s.versions vid with
        | none => rw [hlk] at hd; simp at hd
        | some g =>
            rw [hlk] at hd
            simp only [Option.some_inj] at hd
            rw [← hd]
            have hwfe := wf_versions_erase s.versions vid hc hn
            refine ⟨hwfe, ?_⟩
            show lnull (some f) + vnull (versions_erase s.versions vid) ≤ 1
            rw [nullCount, hL] at hcount
            have := vnull_erase_le s.versions vid
            omega
  | none =>
      rw [hL] at hd
      dsimp only at hd
      cases hlk : versions_lookup s.versions vid with
      | none => rw [hlk] at hd; simp at hd
      | some g =>
          rw [hlk] at hd
          simp only [Option.some_inj] at hd
          rw [← hd]
          have hwfe := wf_versions_erase s.versions vid hc hn
          refine ⟨hwfe, ?_⟩
          show lnull none + vnull (versions_erase s.versions vid) ≤ 1
          rw [nullCount, hL] at hcount
          have := vnull_erase_le s.versions vid
          simp only [lnull] at hcount ⊢
          omega

theorem keyinv_delete_version (key : String) (s : KeyState) (vid : VersionId) (h : KeyInv s) :
    KeyInv (delete_version_id_step key s vid) := by
  rw [delete_version_id_step]
  cases hd : delete_single_object_versioned s vid with
  | none => exact h
  | some out =>
      have h2 : KeyInv out.1 := keyinv_delete_single s vid out hd h
      obtain ⟨s2, del⟩ := out
      show KeyInv (if (del.deleted_latest || del.delete_marker) = true then
        promote_version_to_latest key s2 (some del) else s2)
      by_cases hcond : (del.deleted_latest || del.delete_marker) = true
      · rw [if_pos hcond]
        exact keyinv_promote key s2 (some del) h2
      · rw [if_neg hcond]
        exact h2

theorem keyinv_delete_disabled_versioned (s : KeyState) (vid : VersionId) (h : KeyInv s) :
    KeyInv (delete_object_disabled_versioned s vid) := by
  obtain ⟨⟨hc, hn⟩, hcount⟩ := h
  rw [delete_object_disabled_versioned]
  split
  · refine ⟨⟨hc, hn⟩, ?_⟩
    show lnull none + vnull s.versions ≤ 1
    rw [nullCount] at hcount
    simp only [lnull]
    omega
  · have hwfe := wf_versions_erase s.versions vid hc hn
    refine ⟨hwfe, ?_⟩
    show lnull s.latest + vnull (versions_erase s.versions vid) ≤ 1
    have := vnull_erase_le s.versions vid
    rw [nullCount] at hcount
    omega

theorem keyinv_step (key : String) (s : KeyState) (p : VersioningMode × Op)
    (hm : p.1 ≠ VersioningMode.DISABLED) (h : KeyInv s) : KeyInv (step key s p) := by
  rcases p with ⟨mode, op⟩
  have hmb : (mode == VersioningMode.DISABLED) = false := by simpa using hm
  cases op with
  | put st => exact keyinv_upload mode key s st hm h
  | del st =>
      show KeyInv (if (mode == VersioningMode.DISABLED) = true then { s with latest := none }
        else delete_latest_version mode key s st)
      simp only [hmb, Bool.false_eq_true, if_false]
      exact keyinv_delete_latest mode key s st hm h
  | delv vid =>
      show KeyInv (if (mode == VersioningMode.DISABLED) = true then
        delete_object_disabled_versioned s vid else delete_version_id_step key s vid)
      simp only [hmb, Bool.false_eq_true, if_false]
      exact keyinv_delete_version key s vid h

theorem keyinv_run (key : String) (ops : List (VersioningMode × Op)) : ∀ s, KeyInv s →
    (∀ p ∈ ops, p.1 ≠ VersioningMode.DISABLED) → KeyInv (run_ops key ops s) := by
  induction ops with
  | nil => intro s h _; exact h
  | cons a t ih =>
      intro s h hall
      rw [run_ops, List.foldl_cons]
      exact ih (step key s a) (keyinv_step key s a (hall a (List.mem_cons_self a t)) h)
        (fun p hp => hall p (List.mem_cons_of_mem a hp))

theorem keyinv_init : KeyInv KeyState.init := by decide

theorem suspended_publish_no_null_in_versions (key : String) (s : KeyState) (st : StatLite)
    (f : FsFile) (hwf : WfState s) (hL : s.latest = some f) (hf : f.vid ≠ VersionId.null) :
    vnull (upload_object_step VersioningMode.SUSPENDED key s st).versions = 0 := by
  obtain ⟨hc, hn⟩ := hwf
  rw [upload_object_step]
  simp only [show (VersioningMode.SUSPENDED == VersioningMode.DISABLED) = false from rfl,
    Bool.false_eq_true, if_false]
  cases hlk : versions_lookup (versions_erase s.versions VersionId.null) f.vid with
  | some g =>
      rw [move_suspended_collision s _ f g hL hf hlk]
      exact vnull_erase_null s.versions hc hn
  | none =>
      rw [move_suspended_displace s _ f hL hf hlk]
      rw [vnull_cons, if_neg hf, vnull_erase_null s.versions hc hn]

/-- C1: For every key and every sequence of `upload_object` and
`delete_object` operations performed while the bucket's versioning mode
is ENABLED or SUSPENDED, at most one file belonging to the key carries
version id `null` — the latest file at the key path and the `.versions/`
entries together hold at most one null-id file.  In particular, a
suspended-mode publish that displaces a non-null latest leaves no
null-id entry in `.versions/` (the removal of the null sidecar happens
before the displacement inside `_move_to_dest_version`). -/
theorem at_most_one_null_version :
    (∀ (key : String) (ops : List (VersioningMode × Op)),
        (∀ p ∈ ops, p.1 ≠ VersioningMode.DISABLED) →
        nullCount (run_ops key ops KeyState.init) ≤ 1) ∧
    (∀ (key : String) (s : KeyState) (st : StatLite) (f : FsFile), WfState s →
        s.latest = some f → f.vid ≠ VersionId.null →
        vnull (upload_object_step VersioningMode.SUSPENDED key s st).versions = 0) := by
  constructor
  · intro key ops hall
    exact (keyinv_run key ops KeyState.init keyinv_init hall).2
  · exact fun key s st f hwf hL hf =>
      suspended_publish_no_null_in_versions key s st f hwf hL hf

/-- Witness for C1 at concrete inputs: a three-operation history
(enabled put, suspended put, suspended delete) and a concrete
suspended-mode displacement state. -/
theorem at_most_one_null_version_witness :
    nullCount (run_ops "k"
      [(VersioningMode.ENABLED, Op.put { mtimeNs := 5, ino := 7 }),
       (VersioningMode.SUSPENDED, Op.put { mtimeNs := 6, ino := 8 }),
       (VersioningMode.SUSPENDED, Op.del { mtimeNs := 9, ino := 10 })]
      KeyState.init) ≤ 1 ∧
    vnull (upload_object_step VersioningMode.SUSPENDED "k"
      { latest :=
          some
            { mtimeNs := 5, ino := 7, version_id_xattr := some (VersionId.mtimeIno 5 7),
              delete_marker := false, prev_version_id := none },
        versions :=
          [(VersionId.null,
            { mtimeNs := 2, ino := 3, version_id_xattr := none,
              delete_marker := false, prev_version_id := none })] }
      { mtimeNs := 6, ino := 8 }).versions = 0 :=
  ⟨at_most_one_null_version.1 "k" _ (by decide),
   at_most_one_null_version.2 "k" _ _ _ (by decide) rfl (by decide)⟩

/-! ## Claim C2: the promotion rule -/

/-- The candidate selection as claim C2 words it: the deleted version's
`prev_version_id` hint is consulted whenever it exists — with no
condition that the deleted path was the latest path — and the fallback
scan is over the entries `whose name starts with basename(K)_`, which
is every entry of this key, with no comparison against the full key. -/
def claimed_promote_candidate (s : KeyState) (del : Option DeletedInfo) :
    Option (VersionId × FsFile) :=
  match del.bind (fun d => d.prev_version_id) with
  | some p =>
      match get_prev_version_info s p with
      | some c => some c
      | none => find_max_version_scan s
  | none => find_max_version_scan s

/-- The skip test as claim C2 words it: promotion does nothing when the
candidate's mtime is older (smaller) than the deleted delete-marker's. -/
def claimed_promote_skip (del : Option DeletedInfo) (g : FsFile) : Bool :=
  match del with
  | some d => d.delete_marker && decide (g.info_mtime < d.mtimeNs)
  | none => false

/-- Promotion exactly as claim C2 states it. -/
def claimed_promote (s : KeyState) (del : Option DeletedInfo) : KeyState :=
  match s.latest with
  | some _ => s
  | none =>
      match claimed_promote_candidate s del with
      | none => s
      | some (v, g) =>
          if g.delete_marker then s
          else if claimed_promote_skip del g then s
          else { latest := some g, versions := versions_erase s.versions v }

/-- The `.versions/` scan as the amended claim words it: for a key
containing a `/`, line 2518 compares the sidecar name's basename part
against the full key and can never match, so the scan yields nothing;
for a slash-free key it is the max-mtime entry of the key. -/
def amended_scan (key : String) (s : KeyState) : Option (VersionId × FsFile) :=
  if '/' ∈ key.data then none else find_max_version_scan s

theorem basename_filter_eq_amended_scan (key : String) (s : KeyState) :
    find_max_version_past key s = amended_scan key s := by
  rw [find_max_version_past, amended_scan]
  by_cases hc : '/' ∈ key.data
  · rw [if_pos hc]
    have hb : (basenameOf key == key) = false := by
      simpa using basenameOf_ne_self key hc
    rw [hb]
    rfl
  · rw [if_neg hc]
    have hb : (basenameOf key == key) = true := by
      simpa using basenameOf_eq_self key hc
    rw [hb]
    rfl

/-- The candidate selection as amended: the `prev_version_id` hint is
consulted only when the deleted version sat at the latest path, else the
max-mtime `.versions/` entry is scanned for — and the scan matches
nothing for keys containing a `/`. -/
def amended_promote_candidate (key : String) (s : KeyState) (del : Option DeletedInfo) :
    Option (VersionId × FsFile) :=
  match del with
  | some d =>
      if d.deleted_latest then
        match d.prev_version_id with
        | some p =>
            match get_prev_version_info s p with
            | some c => some c
            | none => amended_scan key s
        | none => amended_scan key s
      else amended_scan key s
  | none => amended_scan key s

/-- The skip test as amended: promotion does nothing when the DELETED
delete-marker's mtime is older (smaller) than the candidate's. -/
def amended_promote_skip (del : Option DeletedInfo) (g : FsFile) : Bool :=
  match del with
  | some d => d.delete_marker && decide (d.mtimeNs < g.info_mtime)
  | none => false

/-- Promotion as claim C2 reads after amendment. -/
def amended_promote (key : String) (s : KeyState) (del : Option DeletedInfo) : KeyState :=
  match s.latest with
  | some _ => s
  | none =>
      match amended_promote_candidate key s del with
      | none => s
      | some (v, g) =>
          if g.delete_marker then s
          else if amended_promote_skip del g then s
          else { latest := some g, versions := versions_erase s.versions v }

theorem promote_candidate_eq_amended (key : String) (s : KeyState) (del : Option DeletedInfo) :
    promote_candidate key s del = amended_promote_candidate key s del := by
  cases del with
  | none =>
      show find_max_version_past key s = amended_scan key s
      exact basename_filter_eq_amended_scan key s
  | some d =>
      show ((if d.deleted_latest then d.prev_version_id else none).bind
          (get_prev_version_info s)).orElse (fun _ => find_max_version_past key s)
        = amended_promote_candidate key s (some d)
      rw [amended_promote_candidate]
      cases hdl : d.deleted_latest with
      | false =>
          show find_max_version_past key s = amended_scan key s
          exact basename_filter_eq_amended_scan key s
      | true =>
          cases hp : d.prev_version_id with
          | none =>
              show find_max_version_past key s = amended_scan key s
              exact basename_filter_eq_amended_scan key s
          | some p =>
              show (get_prev_version_info s p).orElse (fun _ => find_max_version_past key s)
                = (match get_prev_version_info s p with
                   | some c => some c
                   | none => amended_scan key s)
              cases hg : get_prev_version_info s p with
              | some c => rfl
              | none =>
                  show find_max_version_past key s = amended_scan key s
                  exact basename_filter_eq_amended_scan key s

theorem promote_skip_eq_amended (del : Option DeletedInfo) (g : FsFile) :
    promote_skip del g = amended_promote_skip del g := by
  cases del <;> rfl

/-- C2 counterexample: the source's promotion differs from the claimed
rule at three concrete inputs.  First input: the deleted file is a
delete marker with mtime 5 and the only candidate has mtime 10 — the
source SKIPS the promotion (it skips when the deleted marker is older
than the candidate), whereas the claim moves the candidate.  Second
input: the deleted delete marker (not at the latest path) has
`prev_version_id` pointing at the mtime-3 sidecar while the max-mtime
sidecar has mtime 10 — the source ignores the hint (the deleted path
was not the latest) and moves the mtime-10 version, whereas the claim
selects the hinted mtime-3 candidate and then skips.  Third input: for
the nested key `a/b` (deleted latest, no hint), line 2518 compares the
sidecar basename against the full key, so the source's scan matches
nothing and promotion does nothing, whereas the claim's
starts-with-basename scan moves the mtime-10 version. -/
theorem promote_version_to_latest_claim_counterexample :
    promote_version_to_latest "k"
        { latest := none,
          versions := [(VersionId.mtimeIno 10 1,
            { mtimeNs := 10, ino := 1, version_id_xattr := some (VersionId.mtimeIno 10 1),
              delete_marker := false, prev_version_id := none })] }
        (some { deleted_latest := false, vid := VersionId.mtimeIno 5 9, mtimeNs := 5,
                delete_marker := true, prev_version_id := none })
      ≠ claimed_promote
        { latest := none,
          versions := [(VersionId.mtimeIno 10 1,
            { mtimeNs := 10, ino := 1, version_id_xattr := some (VersionId.mtimeIno 10 1),
              delete_marker := false, prev_version_id := none })] }
        (some { deleted_latest := false, vid := VersionId.mtimeIno 5 9, mtimeNs := 5,
                delete_marker := true, prev_version_id := none }) ∧
    promote_version_to_latest "k"
        { latest := none,
          versions := [(VersionId.mtimeIno 3 1,
            { mtimeNs := 3, ino := 1, version_id_xattr := some (VersionId.mtimeIno 3 1),
              delete_marker := false, prev_version_id := none }),
            (VersionId.mtimeIno 10 2,
            { mtimeNs := 10, ino := 2, version_id_xattr := some (VersionId.mtimeIno 10 2),
              delete_marker := false, prev_version_id := none })] }
        (some { deleted_latest := false, vid := VersionId.null, mtimeNs := 20,
                delete_marker := true, prev_version_id := some (VersionId.mtimeIno 3 1) })
      ≠ claimed_promote
        { latest := none,
          versions := [(VersionId.mtimeIno 3 1,
            { mtimeNs := 3, ino := 1, version_id_xattr := some (VersionId.mtimeIno 3 1),
              delete_marker := false, prev_version_id := none }),
            (VersionId.mtimeIno 10 2,
            { mtimeNs := 10, ino := 2, version_id_xattr := some (VersionId.mtimeIno 10 2),
              delete_marker := false, prev_version_id := none })] }
        (some { deleted_latest := false, vid := VersionId.null, mtimeNs := 20,
                delete_marker := true, prev_version_id := some (VersionId.mtimeIno 3 1) }) ∧
    promote_version_to_latest "a/b"
        { latest := none,
          versions := [(VersionId.mtimeIno 10 1,
            { mtimeNs := 10, ino := 1, version_id_xattr := some (VersionId.mtimeIno 10 1),
              delete_marker := false, prev_version_id := none })] }
        (some { deleted_latest := true, vid := VersionId.mtimeIno 20 2, mtimeNs := 20,
                delete_marker := false, prev_version_id := none })
      ≠ claimed_promote
        { latest := none,
          versions := [(VersionId.mtimeIno 10 1,
            { mtimeNs := 10, ino := 1, version_id_xattr := some (VersionId.mtimeIno 10 1),
              delete_marker := false, prev_version_id := none })] }
        (some { deleted_latest := true, vid := VersionId.mtimeIno 20 2, mtimeNs := 20,
                delete_marker := false, prev_version_id := none }) := by
  decide

/-- C2 amended: after deleting a version of the key that was the latest
or a delete marker, with no file at the latest path, promotion picks as
candidate the version named by the deleted version's `prev_version_id`
when the deleted version was at the latest path and that sidecar
exists, and otherwise — only for keys containing no `/`, because line
2518 compares the sidecar name's basename part against the full key —
the `.versions/` entry with the maximum mtimeNs (for keys containing a
`/` the scan matches nothing); it does nothing when there is no
candidate, when the candidate is a delete marker, or when the deleted
delete-marker's mtime is older than the candidate's; otherwise the
candidate is safe-moved to the latest path. -/
theorem promote_version_to_latest_amended :
    ∀ (key : String) (s : KeyState) (del : Option DeletedInfo),
      promote_version_to_latest key s del = amended_promote key s del := by
  intro key s del
  rw [promote_version_to_latest.eq_def, amended_promote.eq_def, promote_candidate_eq_amended]
  simp only [promote_skip_eq_amended]

/-! ## Claim C7: versioned delete under DISABLED versioning -/

/-- An entry of `params.objects` as `delete_multiple_objects` receives
it for versioned deletes: a key and the version id under the property
name `version_id` (the versioned branch destructures exactly these two
at line 1539). -/
structure DeleteObjEntry where
  key : String
  version_id : Option VersionId
deriving DecidableEq, Repr

/-- The `version` property that line 1521 destructures from an objects
entry: a `DeleteObjEntry` carries only `key` and `version_id`, so the
read yields `undefined`. -/
def DeleteObjEntry.version (e : DeleteObjEntry) : Option VersionId := none

/-- `delete_multiple_objects` (lines 1515-1553), disabled branch, for
one entry: `if (version)` (line 1522) would skip the entry with an
empty result, but `version` is undefined for every entry, so each
entry takes the plain path — `_delete_single_object` unlinks the file
at the key's latest path (lines 1526-1531). -/
def delete_multiple_objects_disabled_entry (s : KeyState) (e : DeleteObjEntry) : KeyState :=
  match e.version with
  | some _ => s
  | none => { s with latest := none }

/-- C7 counterexample: with versioning DISABLED, a `delete_object`
carrying an explicit version id is NOT ignored.  Concretely, for a
bucket whose latest file has no version_id xattr (so its id reads as
`'null'`), a delete with `version_id='null'` resolves
`_find_version_path` to the latest path and `_delete_single_object`
unlinks the latest file: the state changes. -/
theorem delete_object_disabled_version_id_counterexample :
    step "k"
        { latest :=
            some
              { mtimeNs := 5, ino := 7, version_id_xattr := none,
                delete_marker := false, prev_version_id := none },
          versions := [] }
        (VersioningMode.DISABLED, Op.delv VersionId.null)
      ≠ { latest :=
            some
              { mtimeNs := 5, ino := 7, version_id_xattr := none,
                delete_marker := false, prev_version_id := none },
          versions := [] } := by
  decide

/-- C7 amended: with versioning DISABLED, a delete request with an
explicit version id returns an empty result but is NOT ignored:
`_find_version_path` resolves the latest path when the latest file's
version id (its xattr, defaulting to `'null'`) equals the requested id
and that latest file is unlinked; otherwise — latest absent or its id
different — the `.versions/<basename>_<id>` sidecar is unlinked if
present (a missing sidecar leaves the state unchanged because the
`ENOENT` is swallowed).  And each versioned entry of
`delete_multiple_objects` in disabled mode unlinks the file at its
key's LATEST path, because line 1521 destructures a `version` property
that entries carrying `version_id` do not have. -/
theorem delete_object_disabled_version_id_behavior :
    ∀ (key : String) (s : KeyState) (vid : VersionId),
      (∀ f, s.latest = some f → f.vid = vid →
        step key s (VersioningMode.DISABLED, Op.delv vid) = { s with latest := none }) ∧
      (∀ f, s.latest = some f → f.vid ≠ vid →
        step key s (VersioningMode.DISABLED, Op.delv vid)
          = { s with versions := versions_erase s.versions vid }) ∧
      (s.latest = none →
        step key s (VersioningMode.DISABLED, Op.delv vid)
          = { s with versions := versions_erase s.versions vid }) ∧
      (∀ e : DeleteObjEntry, e.version_id = some vid →
        delete_multiple_objects_disabled_entry s e = { s with latest := none }) := by
  intro key s vid
  have hstep : step key s (VersioningMode.DISABLED, Op.delv vid)
      = delete_object_disabled_versioned s vid := rfl
  refine ⟨?_, ?_, ?_, ?_⟩
  · intro f hL hfv
    rw [hstep, delete_object_disabled_versioned]
    rw [hL]
    simp [hfv]
  · intro f hL hfv
    rw [hstep, delete_object_disabled_versioned]
    rw [hL]
    simp [hfv]
  · intro hL
    rw [hstep, delete_object_disabled_versioned]
    rw [hL]
    rfl
  · intro e he
    rfl

/-- Witness for the amended C7 behavior at concrete states: a matching
latest, an absent latest with a sidecar, and a versioned entry of
delete_multiple_objects. -/
theorem delete_object_disabled_version_id_behavior_witness :
    step "k"
        { latest :=
            some
              { mtimeNs := 5, ino := 7, version_id_xattr := none,
                delete_marker := false, prev_version_id := none },
          versions := [] }
        (VersioningMode.DISABLED, Op.delv VersionId.null)
      = { latest := none, versions := [] } ∧
    step "k"
        { latest := none,
          versions :=
            [(VersionId.mtimeIno 3 4,
              { mtimeNs := 3, ino := 4, version_id_xattr := some (VersionId.mtimeIno 3 4),
                delete_marker := false, prev_version_id := none })] }
        (VersioningMode.DISABLED, Op.delv (VersionId.mtimeIno 3 4))
      = { latest := none, versions := [] } ∧
    delete_multiple_objects_disabled_entry
        { latest :=
            some
              { mtimeNs := 5, ino := 7, version_id_xattr := none,
                delete_marker := false, prev_version_id := none },
          versions := [] }
        { key := "k", version_id := some VersionId.null }
      = { latest := none, versions := [] } :=
  ⟨((delete_object_disabled_version_id_behavior "k"
      { latest :=
          some
            { mtimeNs := 5, ino := 7, version_id_xattr := none,
              delete_marker := false, prev_version_id := none },
        versions := [] }
      VersionId.null).1
      { mtimeNs := 5, ino := 7, version_id_xattr := none,
        delete_marker := false, prev_version_id := none }
      rfl (by decide)),
   (by
      have h3 := (delete_object_disabled_version_id_behavior "k"
        { latest := none,
          versions :=
            [(VersionId.mtimeIno 3 4,
              { mtimeNs := 3, ino := 4, version_id_xattr := some (VersionId.mtimeIno 3 4),
                delete_marker := false, prev_version_id := none })] }
        (VersionId.mtimeIno 3 4)).2.2.1 rfl
      rw [h3]
      decide),
   ((delete_object_disabled_version_id_behavior "k"
      { latest :=
          some
            { mtimeNs := 5, ino := 7, version_id_xattr := none,
              delete_marker := false, prev_version_id := none },
        versions := [] }
      VersionId.null).2.2.2
      { key := "k", version_id := some VersionId.null } rfl)⟩

/-! ## Claim C3: the public xattr map -/

/-- The six keys claim C3 names as reserved internal keys (public,
unprefixed form). -/
def claimed_internal_keys : List String :=
  ["content_type", "content_md5", "version_id", "prev_version_id", "delete_marker", "dir_content"]

/-- JS single-property update (`obj[k] = v` / `Object.assign(obj, {k: v})`). -/
def xattr_set (x : Xattr) (k v : String) : Xattr :=
  (x.filter (fun p => !(p.1 == k))) ++ [(k, v)]

/-- `_finish_upload`'s xattr construction (lines 1084-1104) for a plain
non-copy upload: the user metadata is prefixed (`to_fs_xattr`), the
content type is recorded under `user.content_type`, the md5 digest is
recorded under `user.content_md5` when md5 is enabled
(`_assign_md5_to_fs_xattr`), and version xattrs are appended only when
versioning is enabled or suspended (line 1100). -/
def finish_upload_fs_xattr (user_xattr : Xattr) (content_type : Option String)
    (digest : Option String) (version_xattr : Xattr) : Xattr :=
  let fs1 := to_fs_xattr user_xattr
  let fs2 :=
    match content_type with
    | some ct => xattr_set fs1 XATTR_CONTENT_TYPE ct
    | none => fs1
  let fs3 :=
    match digest with
    | some d => xattr_set fs2 XATTR_MD5_KEY d
    | none => fs2
  fs3 ++ version_xattr

theorem has_user_ns_append (k : String) : has_user_ns (XATTR_USER_NS ++ k) = true := by
  rw [has_user_ns]
  apply List.isPrefixOf_iff_prefix.mpr
  rw [String.data_append]
  exact List.prefix_append _ _

theorem strip_user_ns_append (k : String) : strip_user_ns (XATTR_USER_NS ++ k) = k := by
  rw [strip_user_ns, String.data_append]
  show String.mk (List.drop 5 ("user.".data ++ k.data)) = k
  rw [show (5 : Nat) = "user.".data.length from rfl, List.drop_left]

theorem user_ns_decomp (s : String) (h : has_user_ns s = true) :
    s = XATTR_USER_NS ++ strip_user_ns s := by
  rw [has_user_ns] at h
  obtain ⟨rest, hr⟩ := List.isPrefixOf_iff_prefix.mp h
  apply String.ext
  rw [String.data_append]
  show s.data = XATTR_USER_NS.data ++ (s.data.drop 5)
  rw [← hr, show (5 : Nat) = XATTR_USER_NS.data.length from rfl, List.drop_left]

theorem to_xattr_to_fs_xattr (X : Xattr) :
    (∀ p ∈ X, (XATTR_USER_NS ++ p.1) ∉ INTERNAL_XATTR) → to_xattr (to_fs_xattr X) = X := by
  induction X with
  | nil => intro _; rfl
  | cons a t ih =>
      intro h
      have ha := h a (List.mem_cons_self a t)
      have hcont : (INTERNAL_XATTR.contains (XATTR_USER_NS ++ a.1)) = false := by
        simpa using ha
      show to_xattr ((XATTR_USER_NS ++ a.1, a.2) :: to_fs_xattr t) = a :: t
      rw [to_xattr, List.filter_cons]
      simp only [has_user_ns_append, hcont, Bool.not_false, Bool.and_self, if_true,
        List.map_cons, strip_user_ns_append]
      rw [show (a.1, a.2) = a from rfl]
      rw [show ((to_fs_xattr t).filter
          (fun p => has_user_ns p.1 && !(INTERNAL_XATTR.contains p.1))).map
          (fun p => (strip_user_ns p.1, p.2)) = to_xattr (to_fs_xattr t) from rfl]
      rw [ih (fun p hp => h p (List.mem_cons_of_mem a hp))]

theorem to_xattr_append (l1 l2 : Xattr) :
    to_xattr (l1 ++ l2) = to_xattr l1 ++ to_xattr l2 := by
  rw [to_xattr, to_xattr, to_xattr, List.filter_append, List.map_append]

theorem to_xattr_internal_nil (k v : String) (h : k ∈ INTERNAL_XATTR) :
    to_xattr [(k, v)] = [] := by
  have hc : (INTERNAL_XATTR.contains k) = true := by simpa using h
  rw [to_xattr, List.filter_cons]
  simp only [hc, Bool.not_true, Bool.and_false, Bool.false_eq_true, if_false, List.filter_nil,
    List.map_nil]

/-- C3 counterexample: `content_md5` is one of the six keys the claim
declares reserved, yet `to_xattr` of an xattr set carrying
`user.content_md5` (as every md5-enabled upload writes) yields a public
map containing the key `content_md5` — the source's `INTERNAL_XATTR`
list (lines 49-54) omits `content_md5` and `version_id`. -/
theorem to_xattr_reserved_leak_counterexample :
    "content_md5" ∈ claimed_internal_keys ∧
    "content_md5" ∈ (to_xattr [("user.content_md5", "d41d8cd98f00b204e9800998ecf8427e")]).map
      Prod.fst := by
  decide

/-- C3 amended: the round-trip holds in the md5-less, unversioned
configuration — for any public map X whose keys avoid the four names in
the source's `INTERNAL_XATTR`, uploading with xattr X (no digest, no
version xattrs) and decoding the stored xattrs returns X exactly; and
the four keys of `INTERNAL_XATTR` (content_type, dir_content,
prev_version_id, delete_marker) never appear in the decoded public map;
`content_md5` and `version_id` are not dropped by the decoder. -/
theorem to_xattr_roundtrip_amended :
    (∀ (user_xattr : Xattr) (ct : Option String),
      (∀ p ∈ user_xattr, (XATTR_USER_NS ++ p.1) ∉ INTERNAL_XATTR) →
      to_xattr (finish_upload_fs_xattr user_xattr ct none []) = user_xattr) ∧
    (∀ (fs_xattr : Xattr) (k : String), (XATTR_USER_NS ++ k) ∈ INTERNAL_XATTR →
      k ∉ (to_xattr fs_xattr).map Prod.fst) := by
  constructor
  · intro X ct h
    cases ct with
    | none =>
        show to_xattr (to_fs_xattr X ++ []) = X
        rw [List.append_nil]
        exact to_xattr_to_fs_xattr X h
    | some c =>
        show to_xattr (xattr_set (to_fs_xattr X) XATTR_CONTENT_TYPE c ++ []) = X
        rw [List.append_nil, xattr_set]
        have hfil : (to_fs_xattr X).filter (fun p => !(p.1 == XATTR_CONTENT_TYPE))
            = to_fs_xattr X := by
          rw [List.filter_eq_self]
          intro p hp
          rw [to_fs_xattr] at hp
          rcases List.mem_map.mp hp with ⟨q, hq, hqp⟩
          have := h q hq
          have hne : XATTR_USER_NS ++ q.1 ≠ XATTR_CONTENT_TYPE := by
            intro he
            rw [he] at this
            exact this (by decide)
          simp only [← hqp]
          simp [hne]
        rw [hfil, to_xattr_append, to_xattr_internal_nil _ c (by decide), List.append_nil]
        exact to_xattr_to_fs_xattr X h
  · intro fs k hk hmem
    rcases List.mem_map.mp hmem with ⟨q, hq, hqk⟩
    rw [to_xattr] at hq
    rcases List.mem_map.mp hq with ⟨p, hp, hpq⟩
    have hfil := List.of_mem_filter hp
    have hand : has_user_ns p.1 = true ∧ (INTERNAL_XATTR.contains p.1) = false := by
      simpa using hfil
    have hns := hand.1
    have hni := hand.2
    have hdec := user_ns_decomp p.1 hns
    have hks : strip_user_ns p.1 = k := by
      rw [← hqk, ← hpq]
    rw [hks] at hdec
    rw [← hdec] at hk
    have hcm : (INTERNAL_XATTR.contains p.1) = true := by simpa using hk
    rw [hni] at hcm
    exact Bool.noConfusion hcm

/-- Witness for the amended C3 round-trip at a concrete public map and a
concrete on-disk xattr set. -/
theorem to_xattr_roundtrip_amended_witness :
    to_xattr (finish_upload_fs_xattr [("color", "blue"), ("shape", "round")]
      (some "text/plain") none []) = [("color", "blue"), ("shape", "round")] ∧
    "dir_content" ∉ (to_xattr [("user.dir_content", "5"), ("user.color", "blue")]).map
      Prod.fst :=
  ⟨to_xattr_roundtrip_amended.1 _ _ (by decide),
   to_xattr_roundtrip_amended.2 _ _ (by decide)⟩

/-! ## Claim C5: the etag rule -/

/-- The claim's regex `.+-.+`: a dash with at least one character on
each side. -/
def matches_dash_regex (s : String) : Prop :=
  ∃ l1 l2, s.data = l1 ++ '-' :: l2 ∧ l1 ≠ [] ∧ l2 ≠ []

theorem get_version_id_by_stat_str_matches_dash (m i : Nat) :
    matches_dash_regex (get_version_id_by_stat_str m i) := by
  refine ⟨['m', 't', 'i', 'm', 'e'],
    (toBase36 m).data ++ '-' :: 'i' :: 'n' :: 'o' :: '-' :: (toBase36 i).data, ?_, by simp, by simp⟩
  rw [get_version_id_by_stat_str]
  simp [String.data_append]

/-- `_finish_upload` + `_get_upload_info` (lines 1104, 1118-1120,
1841-1849): after the move the file is re-stat'd and the returned etag
is `_get_etag` of a stat whose xattrs carry the digest under
`user.content_md5` exactly when md5 was enabled for the upload. -/
def finish_upload_etag (digest : Option String) (stat : NFSStat) : String :=
  get_etag { stat with xattr :=
    match digest with
    | some d => xattr_set stat.xattr XATTR_MD5_KEY d
    | none => stat.xattr }

/-- C5 counterexample: a completed md5-enabled upload of the empty body
returns the raw md5 hex as its etag, which contains no dash at all, so
the claimed `.+-.+` property fails. -/
theorem etag_dash_counterexample :
    ¬ matches_dash_regex (finish_upload_etag (some "d41d8cd98f00b204e9800998ecf8427e")
      { mtimeNs := 5, ino := 7, size := 0, xattr := [] }) := by
  intro hm
  have he : finish_upload_etag (some "d41d8cd98f00b204e9800998ecf8427e")
      { mtimeNs := 5, ino := 7, size := 0, xattr := [] }
      = "d41d8cd98f00b204e9800998ecf8427e" := by decide
  rw [he] at hm
  obtain ⟨l1, l2, hd, -, -⟩ := hm
  have hdash : '-' ∈ ("d41d8cd98f00b204e9800998ecf8427e" : String).data := by
    rw [hd]
    simp
  exact absurd hdash (by decide)

/-- C5 amended: the etag is the `content_md5` xattr when it is present
and non-empty (line 1784 tests JS truthiness, so an empty stored md5
xattr falls through), and then is a raw md5 hex for single uploads —
dashless — or an `<md5>-<N>` for multipart completions; otherwise —
xattr absent or empty — the etag is the version-id-by-stat string,
which always matches `.+-.+`. -/
theorem get_etag_amended :
    (∀ (stat : NFSStat) (d : String), xattr_get stat.xattr XATTR_MD5_KEY = some d →
        d ≠ "" → get_etag stat = d) ∧
    (∀ stat : NFSStat, xattr_get stat.xattr XATTR_MD5_KEY = none →
        get_etag stat = get_version_id_by_stat_str stat.mtimeNs stat.ino ∧
        matches_dash_regex (get_etag stat)) ∧
    (∀ stat : NFSStat, xattr_get stat.xattr XATTR_MD5_KEY = some "" →
        get_etag stat = get_version_id_by_stat_str stat.mtimeNs stat.ino) := by
  refine ⟨?_, ?_, ?_⟩
  · intro stat d hd hne
    rw [get_etag]
    show (if jsTruthy (etag_from_fs_xattr stat.xattr) then
        (etag_from_fs_xattr stat.xattr).getD ""
      else get_version_id_by_stat_str stat.mtimeNs stat.ino) = d
    rw [etag_from_fs_xattr, hd]
    have ht : jsTruthy (some d) = true := by simpa [jsTruthy] using hne
    rw [if_pos ht]
    rfl
  · intro stat hd
    have he : get_etag stat = get_version_id_by_stat_str stat.mtimeNs stat.ino := by
      rw [get_etag]
      show (if jsTruthy (etag_from_fs_xattr stat.xattr) then
          (etag_from_fs_xattr stat.xattr).getD ""
        else get_version_id_by_stat_str stat.mtimeNs stat.ino) = _
      rw [etag_from_fs_xattr, hd]
      rfl
    refine ⟨he, ?_⟩
    rw [he]
    exact get_version_id_by_stat_str_matches_dash stat.mtimeNs stat.ino
  · intro stat hd
    rw [get_etag]
    show (if jsTruthy (etag_from_fs_xattr stat.xattr) then
        (etag_from_fs_xattr stat.xattr).getD ""
      else get_version_id_by_stat_str stat.mtimeNs stat.ino) = _
    rw [etag_from_fs_xattr, hd]
    rfl

/-- Witness for the amended C5 etag rule at concrete stats: a non-empty
md5 xattr, an absent one, and an empty one. -/
theorem get_etag_amended_witness :
    get_etag ⟨5, 7, 0, [("user.content_md5", "abcdef0123456789abcdef0123456789")]⟩
      = "abcdef0123456789abcdef0123456789" ∧
    get_etag ⟨5, 7, 0, []⟩ = get_version_id_by_stat_str 5 7 ∧
    get_etag ⟨5, 7, 0, [("user.content_md5", "")]⟩ = get_version_id_by_stat_str 5 7 :=
  ⟨get_etag_amended.1 _ _ rfl (by decide),
   (get_etag_amended.2.1 ⟨5, 7, 0, []⟩ rfl).1,
   get_etag_amended.2.2 ⟨5, 7, 0, [("user.content_md5", "")]⟩ rfl⟩

/-! ## Claim C6: delete markers surface as NO_SUCH_OBJECT -/

/-- C6: in ENABLED or SUSPENDED mode, `read_object_md` (and the
`read_object_stream` gate) of an entry whose `delete_marker` xattr is
set fails, and the failure carries rpc code NO_SUCH_OBJECT; no object
info is returned. -/
theorem read_delete_marker_no_such_object :
    ∀ (versioning : VersioningMode) (bucket key : String) (stat : NFSStat)
      (vid : Option String),
      (versioning = VersioningMode.ENABLED ∨ versioning = VersioningMode.SUSPENDED) →
      jsTruthy (xattr_get stat.xattr XATTR_DELETE_MARKER) = true →
      (∃ e : JsError, read_object_md_from_stat versioning bucket key stat vid
          = Except.error e ∧ e.rpc_code = some "NO_SUCH_OBJECT") ∧
      (∃ e : JsError, read_object_stream_gate versioning stat
          = Except.error e ∧ e.rpc_code = some "NO_SUCH_OBJECT") := by
  intro v b k stat vid hv hdm
  have hgate : throw_if_delete_marker v stat = Except.error
      { message := "Entry is a delete marker", code := some "ENOENT", rpc_code := none } := by
    rw [throw_if_delete_marker]
    rcases hv with hv | hv <;> subst hv <;> simp [hdm]
  constructor
  · refine ⟨⟨"Entry is a delete marker", some "ENOENT", some "NO_SUCH_OBJECT"⟩, ?_, rfl⟩
    rw [read_object_md_from_stat, hgate]
    rfl
  · refine ⟨⟨"Entry is a delete marker", some "ENOENT", some "NO_SUCH_OBJECT"⟩, ?_, rfl⟩
    rw [read_object_stream_gate, hgate]
    rfl

/-- Witness for C6 at a concrete delete-marker stat. -/
theorem read_delete_marker_no_such_object_witness :
    (∃ e : JsError, read_object_md_from_stat VersioningMode.ENABLED "b" "k"
        { mtimeNs := 5, ino := 7, size := 0, xattr := [("user.delete_marker", "true")] } none
        = Except.error e ∧ e.rpc_code = some "NO_SUCH_OBJECT") ∧
    (∃ e : JsError, read_object_stream_gate VersioningMode.ENABLED
        { mtimeNs := 5, ino := 7, size := 0, xattr := [("user.delete_marker", "true")] }
        = Except.error e ∧ e.rpc_code = some "NO_SUCH_OBJECT") :=
  read_delete_marker_no_such_object VersioningMode.ENABLED "b" "k"
    { mtimeNs := 5, ino := 7, size := 0, xattr := [("user.delete_marker", "true")] } none
    (Or.inl rfl) (by decide)

/-! ## Claim C10: version_id only under ENABLED versioning -/

/-- C10: the version_id field of the ObjectInfo built by
`_get_object_info` is populated only when the bucket's versioning mode
is ENABLED; for SUSPENDED or DISABLED buckets it is absent even when
the stat carries a version_id xattr. -/
theorem version_id_only_when_enabled :
    ∀ (versioning : VersioningMode) (bucket key : String) (stat : NFSStat)
      (rvi : String) (is_latest : Bool),
      versioning ≠ VersioningMode.ENABLED →
      (get_object_info versioning bucket key stat rvi is_latest).version_id = none := by
  intro v b k stat rvi il hv
  have hb : (v == VersioningMode.ENABLED) = false := by simpa using hv
  rw [get_object_info]
  simp [hb]

/-- Witness for C10: a suspended bucket whose file carries the literal
`'null'` version xattr still reports no version_id. -/
theorem version_id_only_when_enabled_witness :
    (get_object_info VersioningMode.SUSPENDED "b" "k"
      { mtimeNs := 5, ino := 7, size := 3, xattr := [("user.version_id", "null")] }
      "null" true).version_id = none :=
  version_id_only_when_enabled VersioningMode.SUSPENDED "b" "k"
    { mtimeNs := 5, ino := 7, size := 3, xattr := [("user.version_id", "null")] }
    "null" true (by decide)

/-! ## Claim C9: keys containing "./" are rejected by _get_file_path -/

/-- One step of Node's `path.normalize` segment resolution: drop empty
and `.` segments, let `..` pop the accumulated stack (or vanish at the
root). -/
def normSegs : List String → List String → List String
  | [], acc => acc.reverse
  | seg :: rest, acc =>
      if seg = "" ∨ seg = "." then normSegs rest acc
      else if seg = ".." then
        match acc with
        | [] => normSegs rest []
        | _ :: t => normSegs rest t
      else normSegs rest (seg :: acc)

/-- Node `path.normalize` on an absolute path, segment-level. -/
def normalize_abs_path (s : String) : String :=
  let segs := normSegs (s.splitOn "/") []
  let core := "/" ++ String.intercalate "/" segs
  if s.endsWith "/" && core ≠ "/" then core ++ "/" else core

/-- `_get_file_path` (lines 1648-1659): keys containing `./` are
rejected with `Error(`Bad relative path key ${key}`)` before any path
is formed; otherwise the key is joined to the bucket path, normalized,
and directory keys get the `.folder` sentinel appended. -/
def get_file_path (bucket_path key : String) : Except String String :=
  if jsIncludes key "./" then Except.error ("Bad relative path key " ++ key)
  else
    let p := normalize_abs_path (bucket_path ++ "/" ++ key)
    Except.ok (if p.endsWith "/" then p ++ ".folder" else p)

/-- C9: every object key containing the substring `./` (so `../` and
`./` traversals in any position) makes `_get_file_path` throw a
bad-relative-path error before any filesystem path is produced. -/
theorem get_file_path_rejects_dot_slash :
    ∀ (bucket_path key : String), jsIncludes key "./" = true →
      get_file_path bucket_path key = Except.error ("Bad relative path key " ++ key) := by
  intro b k h
  rw [get_file_path, if_pos h]

/-- Witness for C9 at a traversal key. -/
theorem get_file_path_rejects_dot_slash_witness :
    jsIncludes "a/../b" "./" = true ∧
    get_file_path "/buckets/b1" "a/../b" = Except.error "Bad relative path key a/../b" :=
  ⟨by decide, get_file_path_rejects_dot_slash "/buckets/b1" "a/../b" (by decide)⟩

/-! ## Claim C8: list_objects delimiter validation -/

/-- The result record assembled by `_list_objects`. -/
structure ListResult where
  objects : List ObjectInfo
  common_prefixes : List String
  is_truncated : Bool
deriving DecidableEq

/-- The parameter-validation head of `list_objects`/`_list_objects`
(lines 489-504) together with the catch-side translation of line 767:
a delimiter other than `''` and `'/'` raises a plain `Error` (no errno
`code`, no rpc code) which passes through
`_translate_object_error_codes` unchanged; a limit of 0 short-circuits
to the empty, non-truncated result.  The directory walk itself (lines
506-765) is beyond these claims and is supplied as the `walk`
argument. -/
def list_objects_model (delimiter : String) (limit : Nat) (walk : ListResult) :
    Except JsError ListResult :=
  if delimiter ≠ "" && delimiter ≠ "/" then
    Except.error (translate_object_error_codes
      { message := "NamespaceFS: Invalid delimiter " ++ delimiter,
        code := none, rpc_code := none })
  else if limit = 0 then
    Except.ok { objects := [], common_prefixes := [], is_truncated := false }
  else Except.ok walk

/-- C8 counterexample: with delimiter `"x"` the call does fail, but the
surfaced error carries no rpc code at all — in particular it is not a
BAD_REQUEST rpc error as the claim states. -/
theorem list_objects_delimiter_counterexample :
    ¬ (∃ e : JsError, list_objects_model "x" 1000 ⟨[], [], false⟩ = Except.error e ∧
        e.rpc_code = some "BAD_REQUEST") := by
  intro h
  obtain ⟨e, he, hrpc⟩ := h
  have he0 : list_objects_model "x" 1000 ⟨[], [], false⟩ = Except.error
      ⟨"NamespaceFS: Invalid delimiter x", none, none⟩ := by rfl
  rw [he0] at he
  have hee := Except.error.inj he
  rw [← hee] at hrpc
  simp at hrpc

/-- C8 amended: any delimiter other than `''` and `'/'` makes
list_objects fail with a plain Error whose message names the
delimiter; `_translate_object_error_codes` adds no rpc code to it (the
error has no errno `code`), so no BAD_REQUEST — or any — rpc code is
attached. -/
theorem list_objects_delimiter_amended :
    ∀ (delimiter : String) (limit : Nat) (walk : ListResult),
      delimiter ≠ "" → delimiter ≠ "/" →
      ∃ e : JsError, list_objects_model delimiter limit walk = Except.error e ∧
        e.message = "NamespaceFS: Invalid delimiter " ++ delimiter ∧
        e.rpc_code = none ∧ e.code = none := by
  intro d l w h1 h2
  refine ⟨⟨"NamespaceFS: Invalid delimiter " ++ d, none, none⟩, ?_, rfl, rfl, rfl⟩
  have hc : (d ≠ "" && d ≠ "/") = true := by simp [h1, h2]
  rw [list_objects_model, if_pos hc]
  rfl

/-- Witness for the amended C8 statement at delimiter "x". -/
theorem list_objects_delimiter_amended_witness :
    ∃ e : JsError, list_objects_model "x" 1000 ⟨[], [], false⟩ = Except.error e ∧
      e.message = "NamespaceFS: Invalid delimiter x" ∧
      e.rpc_code = none ∧ e.code = none :=
  list_objects_delimiter_amended "x" 1000 ⟨[], [], false⟩ (by decide) (by decide)

/-! ## Claim C4: the multipart completion etag -/

/-- Hex digit value, as Node's Buffer.from(s, 'hex') decodes digits. -/
def hexVal (c : Char) : Option Nat :=
  if '0' ≤ c ∧ c ≤ '9' then some (c.toNat - '0'.toNat)
  else if 'a' ≤ c ∧ c ≤ 'f' then some (c.toNat - 'a'.toNat + 10)
  else if 'A' ≤ c ∧ c ≤ 'F' then some (c.toNat - 'A'.toNat + 10)
  else none

/-- Buffer.from(s, 'hex') (line 1438): consume hex-digit pairs into
bytes, stopping at the first non-hex pair. -/
def hexDecode : List Char → List Nat
  | c1 :: c2 :: rest =>
      match hexVal c1, hexVal c2 with
      | some h, some l => (16 * h + l) :: hexDecode rest
      | _, _ => []
  | _ => []

/-- One entry of params.multiparts: the part number and the etag the
client echoes back from the part upload. -/
structure MultipartEntry where
  num : Nat
  etag : String
deriving DecidableEq

/-- multiparts.sort((a, b) => a.num - b.num) (line 1401): ascending
stable sort by part number, as insertion sort. -/
def insertByNum (p : MultipartEntry) : List MultipartEntry → List MultipartEntry
  | [] => [p]
  | q :: t => if p.num ≤ q.num then p :: q :: t else q :: insertByNum p t

def sortByNum (l : List MultipartEntry) : List MultipartEntry :=
  l.foldr insertByNum []

/-- The per-part loop of complete_object_upload (lines 1409-1439):
open part-<num>, stat it, throw on etag mismatch with the stored
stat's etag, append the part bytes, and feed the hex-decoded supplied
etag to the aggregate md5.  The accumulator is the byte list the
aggregate md5 has consumed. -/
def partsFold (store : Nat → Option NFSStat) :
    List MultipartEntry → List Nat → Except JsError (List Nat)
  | [], acc => Except.ok acc
  | p :: rest, acc =>
      match store p.num with
      | none => Except.error ⟨"No such file or directory", some "ENOENT", none⟩
      | some st =>
          if p.etag = get_etag st then partsFold store rest (acc ++ hexDecode p.etag.data)
          else Except.error ⟨"mismatch part etag", none, none⟩

/-- The bytes the aggregate md5 consumes for a part list, in order. -/
def partsBytes (l : List MultipartEntry) : List Nat :=
  l.foldr (fun p acc => hexDecode p.etag.data ++ acc) []

/-- complete_object_upload (lines 1390-1460) with md5 enabled, over an
abstract md5 (md5hex maps the consumed byte stream to its hex digest)
and an abstract part store mapping part numbers to the stat of the
stored part file: sort by num, run the part loop, and return
digest-hex ++ "-" ++ part count (line 1437); errors pass through
_translate_object_error_codes (line 1457). -/
def complete_object_upload_model (md5hex : List Nat → String)
    (store : Nat → Option NFSStat) (multiparts : List MultipartEntry) :
    Except JsError String :=
  match partsFold store (sortByNum multiparts) [] with
  | Except.error e => Except.error (translate_object_error_codes e)
  | Except.ok bytes => Except.ok (md5hex bytes ++ "-" ++ toString multiparts.length)

theorem mem_insertByNum (b p : MultipartEntry) (l : List MultipartEntry) :
    b ∈ insertByNum p l ↔ b = p ∨ b ∈ l := by
  induction l with
  | nil => simp [insertByNum]
  | cons q t ih =>
      rw [insertByNum]
      by_cases hle : p.num ≤ q.num
      · rw [if_pos hle]
        simp [List.mem_cons]
      · rw [if_neg hle]
        simp only [List.mem_cons, ih]
        tauto

theorem mem_sortByNum (b : MultipartEntry) (l : List MultipartEntry) :
    b ∈ sortByNum l ↔ b ∈ l := by
  induction l with
  | nil => simp [sortByNum]
  | cons q t ih =>
      show b ∈ insertByNum q (sortByNum t) ↔ _
      rw [mem_insertByNum, ih, List.mem_cons]

theorem insertByNum_sorted (p : MultipartEntry) (l : List MultipartEntry)
    (h : l.Pairwise (fun a b => a.num ≤ b.num)) :
    (insertByNum p l).Pairwise (fun a b => a.num ≤ b.num) := by
  induction l with
  | nil => simp [insertByNum]
  | cons q t ih =>
      rw [List.pairwise_cons] at h
      rw [insertByNum]
      by_cases hle : p.num ≤ q.num
      · rw [if_pos hle]
        refine List.pairwise_cons.mpr ⟨?_, List.pairwise_cons.mpr h⟩
        intro b hb
        rcases List.mem_cons.mp hb with rfl | hb
        · exact hle
        · exact le_trans hle (h.1 b hb)
      · rw [if_neg hle]
        refine List.pairwise_cons.mpr ⟨?_, ih h.2⟩
        intro b hb
        rcases (mem_insertByNum b p t).mp hb with rfl | hb
        · omega
        · exact h.1 b hb

theorem sortByNum_sorted (l : List MultipartEntry) :
    (sortByNum l).Pairwise (fun a b => a.num ≤ b.num) := by
  induction l with
  | nil => simp [sortByNum]
  | cons q t ih => exact insertByNum_sorted q (sortByNum t) ih

theorem partsFold_cons_eq (store : Nat → Option NFSStat) (p : MultipartEntry)
    (rest : List MultipartEntry) (acc : List Nat) :
    partsFold store (p :: rest) acc =
      match store p.num with
      | none => Except.error ⟨"No such file or directory", some "ENOENT", none⟩
      | some st =>
          if p.etag = get_etag st then partsFold store rest (acc ++ hexDecode p.etag.data)
          else Except.error ⟨"mismatch part etag", none, none⟩ := rfl

theorem partsFold_ok (store : Nat → Option NFSStat) :
    ∀ (l : List MultipartEntry) (acc : List Nat),
      (∀ p ∈ l, (store p.num).map get_etag = some p.etag) →
      partsFold store l acc = Except.ok (acc ++ partsBytes l) := by
  intro l
  induction l with
  | nil =>
      intro acc h
      simp [partsFold, partsBytes]
  | cons p rest ih =>
      intro acc h
      have hp := h p (List.mem_cons_self p rest)
      rw [partsFold_cons_eq]
      cases hst : store p.num with
      | none => rw [hst] at hp; simp at hp
      | some st =>
          rw [hst] at hp
          have he : p.etag = get_etag st :=
            (Option.some.inj (show some (get_etag st) = some p.etag from hp)).symm
          show (if p.etag = get_etag st then
              partsFold store rest (acc ++ hexDecode p.etag.data)
            else Except.error ⟨"mismatch part etag", none, none⟩)
            = Except.ok (acc ++ partsBytes (p :: rest))
          rw [if_pos he, ih (acc ++ hexDecode p.etag.data)
            (fun q hq => h q (List.mem_cons_of_mem p hq))]
          have hpb : partsBytes (p :: rest) = hexDecode p.etag.data ++ partsBytes rest := rfl
          rw [hpb, List.append_assoc]

theorem partsFold_err (store : Nat → Option NFSStat) :
    ∀ (l : List MultipartEntry) (acc : List Nat) (p : MultipartEntry) (st : NFSStat),
      p ∈ l → store p.num = some st → p.etag ≠ get_etag st →
      ∃ e, partsFold store l acc = Except.error e := by
  intro l
  induction l with
  | nil =>
      intro acc p st hp
      exact absurd hp (List.not_mem_nil p)
  | cons q rest ih =>
      intro acc p st hp hst hne
      rw [partsFold_cons_eq]
      cases hqs : store q.num with
      | none => exact ⟨_, rfl⟩
      | some st2 =>
          by_cases hm : q.etag = get_etag st2
          · rcases List.mem_cons.mp hp with rfl | hp2
            · rw [hqs] at hst
              have hss : st2 = st := Option.some.inj hst
              subst hss
              exact absurd hm hne
            · obtain ⟨e, he⟩ := ih (acc ++ hexDecode q.etag.data) p st hp2 hst hne
              refine ⟨e, ?_⟩
              show (if q.etag = get_etag st2 then
                  partsFold store rest (acc ++ hexDecode q.etag.data)
                else Except.error ⟨"mismatch part etag", none, none⟩) = Except.error e
              rw [if_pos hm]
              exact he
          · refine ⟨⟨"mismatch part etag", none, none⟩, ?_⟩
            show (if q.etag = get_etag st2 then
                partsFold store rest (acc ++ hexDecode q.etag.data)
              else Except.error ⟨"mismatch part etag", none, none⟩)
              = Except.error ⟨"mismatch part etag", none, none⟩
            rw [if_neg hm]

/-- C4: complete_object_upload sorts the multiparts ascending by part
number; when every supplied etag matches the stored part's etag the
result is md5hex of the concatenation, in sorted part order, of the
hex-decoded per-part etags, followed by "-" and the part count; any
etag mismatch against the stored part makes the call fail. -/
theorem complete_object_upload_etag_identity :
    ∀ (md5hex : List Nat → String) (store : Nat → Option NFSStat)
      (multiparts : List MultipartEntry),
      ((sortByNum multiparts).Pairwise (fun a b => a.num ≤ b.num)) ∧
      ((∀ p ∈ multiparts, (store p.num).map get_etag = some p.etag) →
        complete_object_upload_model md5hex store multiparts
          = Except.ok (md5hex (partsBytes (sortByNum multiparts))
              ++ "-" ++ toString multiparts.length)) ∧
      (∀ p st, p ∈ multiparts → store p.num = some st → p.etag ≠ get_etag st →
        ∃ e, complete_object_upload_model md5hex store multiparts = Except.error e) := by
  intro md5hex store multiparts
  refine ⟨sortByNum_sorted multiparts, ?_, ?_⟩
  · intro h
    have hall : ∀ p ∈ sortByNum multiparts, (store p.num).map get_etag = some p.etag :=
      fun p hp => h p ((mem_sortByNum p multiparts).mp hp)
    rw [complete_object_upload_model, partsFold_ok store (sortByNum multiparts) [] hall]
    rfl
  · intro p st hp hst hne
    obtain ⟨e, he⟩ := partsFold_err store (sortByNum multiparts) [] p st
      ((mem_sortByNum p multiparts).mpr hp) hst hne
    exact ⟨translate_object_error_codes e, by rw [complete_object_upload_model, he]⟩

def w4md5 (bytes : List Nat) : String := toString bytes.length

def w4statA : NFSStat := ⟨11, 21, 4, [("user.content_md5", "00ff")]⟩

def w4statB : NFSStat := ⟨12, 22, 4, [("user.content_md5", "a1b2")]⟩

def w4store (n : Nat) : Option NFSStat :=
  if n = 1 then some w4statA else if n = 2 then some w4statB else none

def w4parts : List MultipartEntry := [⟨2, "a1b2"⟩, ⟨1, "00ff"⟩]

/-- Witness for C4 at a concrete two-part completion and a concrete
mismatching part. -/
theorem complete_object_upload_etag_identity_witness :
    complete_object_upload_model w4md5 w4store w4parts
      = Except.ok (w4md5 (partsBytes (sortByNum w4parts)) ++ "-" ++ toString w4parts.length) ∧
    ∃ e, complete_object_upload_model w4md5 w4store [⟨1, "beef"⟩] = Except.error e :=
  ⟨(complete_object_upload_etag_identity w4md5 w4store w4parts).2.1 (by decide),
   (complete_object_upload_etag_identity w4md5 w4store [⟨1, "beef"⟩]).2.2 ⟨1, "beef"⟩
     w4statA (by decide) rfl (by decide)⟩
